import Mathlib

/-!
Verification of the gofa-tcp-control instruction-compilation and execution
engine against its natural-language specification.

The Python sources under SpeechToText/learning are shallowly embedded:
each Python function relevant to a claim becomes an executable Lean
definition over explicit state, numbers become rationals or integers, and
impure inputs (the wall clock, files observed while polling, language-model
responses) become explicit arguments or traces.
-/

namespace GoFa

/-- Association-list lookup with Python-dict semantics for duplicate-free
key lists: the first binding for a key wins. -/
def lookupA {α : Type} (m : List (String × α)) (k : String) : Option α :=
  match m with
  | [] => none
  | (k1, v) :: rest => if k1 = k then some v else lookupA rest k

/-- Python dict assignment d[k] = v: replaces the binding in place when the
key is present, appends it otherwise. -/
def setA {α : Type} (m : List (String × α)) (k : String) (v : α) : List (String × α) :=
  match m with
  | [] => [(k, v)]
  | (k1, v1) :: rest => if k1 = k then (k1, v) :: rest else (k1, v1) :: setA rest k v

theorem lookupA_setA_self {α : Type} (m : List (String × α)) (k : String) (v : α) :
    lookupA (setA m k v) k = some v := by
  induction m with
  | nil => simp [setA, lookupA]
  | cons hd tl ih =>
    obtain ⟨k1, v1⟩ := hd
    by_cases h : k1 = k
    · simp [setA, lookupA, h]
    · simp [setA, lookupA, h, ih]

/-! ## Hardware sync protocol — InstructionExecutor._send_and_wait
(instruction_compiler.py, lines 591-650).

The commanded position is written to tcp_commands.json together with the
current gripper value, the wall-clock write time is recorded, and then
tcp_ack.json is polled at a fixed interval until a bounded deadline.  Each
poll observes the acknowledgment file in one of three ways: the file does
not exist, it fails to parse (mid-write), or it yields an acknowledgment
record with a modification time.  The bounded polling loop is embedded as
structural recursion over the finite list of observations made before the
deadline; reaching the end of the list is the timeout. -/

/-- A commanded or confirmed 3D position (floats embedded as rationals). -/
structure Pos where
  x : ℚ
  y : ℚ
  z : ℚ
deriving DecidableEq, Repr

/-- One parsed acknowledgment file content plus its file-modification time:
completed flag, the optional coordinates of ack["position"], an optional
echoed gripper value nested in that dict, and the observed mtime. -/
structure AckRecord where
  completed : Bool
  posX : Option ℚ
  posY : Option ℚ
  posZ : Option ℚ
  gripper : Option ℚ
  mtime : ℚ
deriving DecidableEq, Repr

/-- What one iteration of the polling loop observes about tcp_ack.json. -/
inductive PollObs where
  /-- os.path.exists(self.ack_file) is false. -/
  | missing : PollObs
  /-- The file exists but json.load raises (file mid-write); also covers an
  OSError while reading.  The loop continues in either case. -/
  | unreadable : PollObs
  /-- The file exists, has the given mtime, and parses to the given record. -/
  | ack (a : AckRecord) : PollObs
deriving DecidableEq, Repr

/-- The confirmed position assembled from a completed acknowledgment:
each coordinate of ack["position"] defaults to the commanded value. -/
def confirmedPos (cmd : Pos) (a : AckRecord) : Pos :=
  { x := a.posX.getD cmd.x, y := a.posY.getD cmd.y, z := a.posZ.getD cmd.z }

/-- The polling loop of _send_and_wait: observations are consumed in order;
an ack whose mtime is older than the recorded write time is skipped as
stale, a fresh ack with completed=true is adopted, and exhausting the list
(the ACK_TIMEOUT deadline) falls back to the commanded position. -/
def pollForAck (cmd : Pos) (writeTime : ℚ) : List PollObs → Pos
  | [] => cmd
  | .missing :: rest => pollForAck cmd writeTime rest
  | .unreadable :: rest => pollForAck cmd writeTime rest
  | .ack a :: rest =>
      if a.mtime < writeTime then pollForAck cmd writeTime rest
      else if a.completed then confirmedPos cmd a
      else pollForAck cmd writeTime rest

/-- InstructionExecutor._send_and_wait.  If the command write itself raises,
the function returns the commanded position at once without polling;
otherwise it runs the polling loop.  The gripper value serialized next to
the position does not influence the returned position and is omitted. -/
def sendAndWait (cmd : Pos) (writeOk : Bool) (writeTime : ℚ)
    (polls : List PollObs) : Pos :=
  if writeOk then pollForAck cmd writeTime polls else cmd

theorem pollForAck_all_stale (cmd : Pos) (writeTime : ℚ) (polls : List PollObs)
    (h : ∀ a : AckRecord, PollObs.ack a ∈ polls →
      a.mtime < writeTime ∨ a.completed = false) :
    pollForAck cmd writeTime polls = cmd := by
  induction polls with
  | nil => rfl
  | cons o rest ih =>
    have hrest : ∀ a : AckRecord, PollObs.ack a ∈ rest →
        a.mtime < writeTime ∨ a.completed = false :=
      fun a ha => h a (List.mem_cons_of_mem _ ha)
    cases o with
    | missing => simpa [pollForAck] using ih hrest
    | unreadable => simpa [pollForAck] using ih hrest
    | ack a =>
      rcases h a (List.mem_cons_self _ _) with hm | hc
      · simpa [pollForAck, hm] using ih hrest
      · rcases lt_or_ge a.mtime writeTime with hlt | hge
        · simpa [pollForAck, hlt] using ih hrest
        · simp only [pollForAck, not_lt.mpr hge, if_neg (not_lt.mpr hge), hc]
          simpa [hc] using ih hrest

theorem pollForAck_result_cases (cmd : Pos) (writeTime : ℚ) (polls : List PollObs) :
    pollForAck cmd writeTime polls = cmd ∨
      ∃ a : AckRecord, PollObs.ack a ∈ polls ∧ writeTime ≤ a.mtime ∧
        a.completed = true ∧ pollForAck cmd writeTime polls = confirmedPos cmd a := by
  induction polls with
  | nil => exact Or.inl rfl
  | cons o rest ih =>
    cases o with
    | missing =>
      rcases ih with h | ⟨a, ha, hm, hc, he⟩
      · exact Or.inl (by simpa [pollForAck] using h)
      · exact Or.inr ⟨a, List.mem_cons_of_mem _ ha, hm, hc, by simpa [pollForAck] using he⟩
    | unreadable =>
      rcases ih with h | ⟨a, ha, hm, hc, he⟩
      · exact Or.inl (by simpa [pollForAck] using h)
      · exact Or.inr ⟨a, List.mem_cons_of_mem _ ha, hm, hc, by simpa [pollForAck] using he⟩
    | ack a0 =>
      rcases lt_or_ge a0.mtime writeTime with hlt | hge
      · rcases ih with h | ⟨a, ha, hm, hc, he⟩
        · exact Or.inl (by simpa [pollForAck, hlt] using h)
        · exact Or.inr ⟨a, List.mem_cons_of_mem _ ha, hm, hc,
            by simpa [pollForAck, hlt] using he⟩
      · cases hc0 : a0.completed with
        | true =>
          refine Or.inr ⟨a0, List.mem_cons_self _ _, hge, hc0, ?_⟩
          simp [pollForAck, not_lt.mpr hge, hc0]
        | false =>
          rcases ih with h | ⟨a, ha, hm, hc, he⟩
          · exact Or.inl (by simpa [pollForAck, not_lt.mpr hge, hc0] using h)
          · exact Or.inr ⟨a, List.mem_cons_of_mem _ ha, hm, hc,
              by simpa [pollForAck, not_lt.mpr hge, hc0] using he⟩

/-- C2: _send_and_wait never adopts an acknowledgment whose file mtime is
older than the recorded command-write time: every returned position is
either the originally commanded one, or the confirmed position of some
polled ack with mtime at or after the write time and completed=true; and
when every polled ack is stale or incomplete (in particular when the
timeout expires with only a stale ack present), the originally commanded
position is returned. -/
theorem sendAndWait_never_adopts_stale (cmd : Pos) (writeOk : Bool)
    (writeTime : ℚ) (polls : List PollObs) :
    ((∀ a : AckRecord, PollObs.ack a ∈ polls →
        a.mtime < writeTime ∨ a.completed = false) →
      sendAndWait cmd writeOk writeTime polls = cmd) ∧
    (sendAndWait cmd writeOk writeTime polls = cmd ∨
      ∃ a : AckRecord, PollObs.ack a ∈ polls ∧ writeTime ≤ a.mtime ∧
        a.completed = true ∧
        sendAndWait cmd writeOk writeTime polls = confirmedPos cmd a) := by
  cases writeOk with
  | false => exact ⟨fun _ => rfl, Or.inl rfl⟩
  | true =>
    refine ⟨fun h => ?_, ?_⟩
    · simpa [sendAndWait] using pollForAck_all_stale cmd writeTime polls h
    · simpa [sendAndWait] using pollForAck_result_cases cmd writeTime polls

/-- Witness for C2: the command file is written at time 100 with position
(1, 2, 3); the only ack ever observed has completed=true but mtime 95,
i.e. it predates the write.  The whole polling window elapses and the
commanded position is returned, not the stale ack's (9, 9, 9). -/
theorem sendAndWait_never_adopts_stale_witness :
    sendAndWait ⟨1, 2, 3⟩ true 100
      [PollObs.ack ⟨true, some 9, some 9, some 9, none, 95⟩] = ⟨1, 2, 3⟩ :=
  (sendAndWait_never_adopts_stale ⟨1, 2, 3⟩ true 100
      [PollObs.ack ⟨true, some 9, some 9, some 9, none, 95⟩]).1
    (by
      intro a ha
      simp only [List.mem_singleton, PollObs.ack.injEq] at ha
      subst ha
      left
      norm_num)

/-! ## Assembly zone stack — SandwichExecutor.execute_add_layer
(sandwich_executor.py, lines 137-221).

The executor keeps the assembly stack (ordered item list) and its recorded
height.  add_layer validates the item parameter, rejects when the recorded
height has reached the configured max_stack_height, then issues the
underlying move/grip primitives and finally appends the item and increments
the height.  Of the issued primitives, _execute_gripper_close,
_execute_gripper_open and _execute_move_relative (directions up/down)
always return True; _execute_move_to fails exactly when the named location
is unknown.  The stack fields are only mutated after every primitive has
succeeded, so a failing call leaves them unchanged.  Position bookkeeping
(current_position, gripper_position, file writes) does not influence the
stack and is not tracked here. -/

/-- The scene data add_layer consults: the item names of scene items, the
location names, and the resolved constraint values (constraints.get with
defaults 8 and 1.0 applied). -/
structure SceneConfig where
  items : List String
  locations : List String
  maxStackHeight : Int
  tileHeightCm : ℚ
deriving DecidableEq, Repr

/-- The SandwichExecutor state touched by add_layer: assembly_stack and
assembly_stack_height. -/
structure AssemblyState where
  assemblyStack : List String
  assemblyStackHeight : Int
deriving DecidableEq, Repr

/-- SandwichExecutor.execute_add_layer.  The item argument is
params.get("item"): none when the key is absent; Python falsiness also
rejects the empty string.  Returns the success flag together with the
resulting stack state. -/
def executeAddLayer (scene : SceneConfig) (st : AssemblyState)
    (item : Option String) : Bool × AssemblyState :=
  match item with
  | none => (false, st)
  | some it =>
    if it = "" then (false, st)
    else if it ∉ scene.items then (false, st)
    else if scene.maxStackHeight ≤ st.assemblyStackHeight then (false, st)
    else if (it ++ "_slot") ∉ scene.locations then (false, st)
    else if "assembly_fixture" ∉ scene.locations then (false, st)
    else (true, { assemblyStack := st.assemblyStack ++ [it],
                  assemblyStackHeight := st.assemblyStackHeight + 1 })

/-- States reached by repeatedly calling add_layer with a fixed item,
starting from an empty assembly stack of recorded height 0. -/
def addLayerRun (scene : SceneConfig) (item : String) : Nat → AssemblyState
  | 0 => { assemblyStack := [], assemblyStackHeight := 0 }
  | n + 1 => (executeAddLayer scene (addLayerRun scene item n) (some item)).2

theorem executeAddLayer_success (scene : SceneConfig) (st : AssemblyState)
    (item : String) (hne : item ≠ "") (hitem : item ∈ scene.items)
    (hslot : item ++ "_slot" ∈ scene.locations)
    (hfix : "assembly_fixture" ∈ scene.locations)
    (hlt : st.assemblyStackHeight < scene.maxStackHeight) :
    executeAddLayer scene st (some item) =
      (true, { assemblyStack := st.assemblyStack ++ [item],
               assemblyStackHeight := st.assemblyStackHeight + 1 }) := by
  simp [executeAddLayer, hne, hitem, hslot, hfix, not_le.mpr hlt]

theorem addLayerRun_eq (scene : SceneConfig) (item : String)
    (hne : item ≠ "") (hitem : item ∈ scene.items)
    (hslot : item ++ "_slot" ∈ scene.locations)
    (hfix : "assembly_fixture" ∈ scene.locations)
    (k : Nat) (hk : (k : Int) ≤ scene.maxStackHeight) :
    addLayerRun scene item k =
      { assemblyStack := List.replicate k item, assemblyStackHeight := (k : Int) } := by
  induction k with
  | zero => simp [addLayerRun]
  | succ n ih =>
    have hn : (n : Int) ≤ scene.maxStackHeight := by push_cast at hk ⊢; omega
    have hlt : (n : Int) < scene.maxStackHeight := by push_cast at hk ⊢; omega
    have hstate := ih hn
    rw [addLayerRun, hstate,
      executeAddLayer_success scene _ item hne hitem hslot hfix (by simpa using hlt)]
    simp [List.replicate_succ']

/-- C1: every successful add_layer call increments the recorded stack
height by exactly one, and a failing call returns the state unchanged; and
starting from an empty stack (with a valid item, its slot and the assembly
fixture present in the scene, and a nonnegative max_stack_height), each of
the first max_stack_height calls succeeds, after k calls the height is
exactly k (so it never exceeds max_stack_height), and the next call after
max_stack_height successes fails leaving stack contents and height
unchanged. -/
theorem addLayer_respects_max_stack_height (scene : SceneConfig)
    (item : String) (hne : item ≠ "") (hitem : item ∈ scene.items)
    (hslot : item ++ "_slot" ∈ scene.locations)
    (hfix : "assembly_fixture" ∈ scene.locations)
    (hmax : 0 ≤ scene.maxStackHeight) :
    (∀ (st : AssemblyState) (it : Option String),
        ((executeAddLayer scene st it).1 = true →
          (executeAddLayer scene st it).2.assemblyStackHeight =
            st.assemblyStackHeight + 1) ∧
        ((executeAddLayer scene st it).1 = false →
          (executeAddLayer scene st it).2 = st)) ∧
    (∀ k : Nat, (k : Int) ≤ scene.maxStackHeight →
        (addLayerRun scene item k).assemblyStackHeight = (k : Int) ∧
        (addLayerRun scene item k).assemblyStack = List.replicate k item) ∧
    (∀ k : Nat, (k : Int) < scene.maxStackHeight →
        (executeAddLayer scene (addLayerRun scene item k) (some item)).1 = true) ∧
    (executeAddLayer scene (addLayerRun scene item scene.maxStackHeight.toNat)
        (some item) =
      (false, addLayerRun scene item scene.maxStackHeight.toNat)) := by
  refine ⟨?_, ?_, ?_, ?_⟩
  · intro st it
    constructor <;> intro h <;>
      cases it with
      | none => simp [executeAddLayer] at h ⊢
      | some s =>
        simp only [executeAddLayer] at h ⊢
        split_ifs at h ⊢ <;> simp_all
  · intro k hk
    rw [addLayerRun_eq scene item hne hitem hslot hfix k hk]
    exact ⟨rfl, rfl⟩
  · intro k hk
    rw [addLayerRun_eq scene item hne hitem hslot hfix k (le_of_lt hk)]
    have := executeAddLayer_success scene
      { assemblyStack := List.replicate k item, assemblyStackHeight := (k : Int) }
      item hne hitem hslot hfix (by simpa using hk)
    rw [this]
  · have hk : (scene.maxStackHeight.toNat : Int) ≤ scene.maxStackHeight := by omega
    rw [addLayerRun_eq scene item hne hitem hslot hfix scene.maxStackHeight.toNat hk]
    have hfull : scene.maxStackHeight ≤ ((scene.maxStackHeight.toNat : Nat) : Int) := by
      omega
    simp [executeAddLayer, hne, hitem, hslot, hfix, hfull]

/-- Witness for C1: a scene with max_stack_height 2 and bread available;
three add_layer("bread") calls from empty — the first two succeed, the
third fails with the stack still [bread, bread] at height 2. -/
theorem addLayer_respects_max_stack_height_witness :
    (executeAddLayer ⟨["bread"], ["bread_slot", "assembly_fixture"], 2, 1⟩
        (addLayerRun ⟨["bread"], ["bread_slot", "assembly_fixture"], 2, 1⟩ "bread" 1)
        (some "bread")).1 = true ∧
    (executeAddLayer ⟨["bread"], ["bread_slot", "assembly_fixture"], 2, 1⟩
        (addLayerRun ⟨["bread"], ["bread_slot", "assembly_fixture"], 2, 1⟩ "bread" 2)
        (some "bread")) =
      (false, addLayerRun ⟨["bread"], ["bread_slot", "assembly_fixture"], 2, 1⟩
        "bread" 2) := by
  have h := addLayer_respects_max_stack_height
    ⟨["bread"], ["bread_slot", "assembly_fixture"], 2, 1⟩ "bread"
    (by decide) (by decide) (by decide) (by decide) (by decide)
  exact ⟨h.2.2.1 1 (by decide), h.2.2.2⟩

/-! ## Instruction registry and compiler — InstructionCompiler
(instruction_compiler.py, lines 95-307).

Python values appearing in parameter maps and templates are embedded as an
inductive of JSON-like values; floats become rationals.  str(value) is
embedded with an abstract numeral rendering (toString of the rational) —
no claim depends on numeral formatting. -/

/-- Whether the character list l starts with the pattern pat. -/
def strStartsWithL : List Char → List Char → Bool
  | _, [] => true
  | [], _ :: _ => false
  | c :: cs, p :: ps => c = p && strStartsWithL cs ps

/-- Python s.startswith(pre). -/
def pyStartsWith (s pre : String) : Bool :=
  strStartsWithL s.data pre.data

/-- Left-to-right non-overlapping replacement of every occurrence of a
nonempty pattern, Python str.replace semantics.  The fuel is the input
length, which bounds the recursion depth since every step consumes at
least one character; structural recursion on it keeps the function
kernel-reducible. -/
def pyReplaceFuel (pat repl : List Char) : Nat → List Char → List Char
  | 0, l => l
  | _ + 1, [] => []
  | fuel + 1, c :: cs =>
    match pat with
    | [] => c :: cs
    | _ :: ps =>
      if strStartsWithL (c :: cs) pat then
        repl ++ pyReplaceFuel pat repl fuel (cs.drop ps.length)
      else
        c :: pyReplaceFuel pat repl fuel cs

/-- Python s.replace(pat, repl): with an empty pattern, repl is inserted
at every gap; otherwise all non-overlapping occurrences are replaced
scanning left to right. -/
def pyReplace (s pat repl : String) : String :=
  match pat.data with
  | [] => ⟨repl.data ++ s.data.flatMap fun c => c :: repl.data⟩
  | _ :: _ => ⟨pyReplaceFuel pat.data repl.data s.data.length s.data⟩

/-- A Python/JSON value as stored in params, templates and model output. -/
inductive PyVal where
  | pnull : PyVal
  | pbool (b : Bool) : PyVal
  | pnum (q : ℚ) : PyVal
  | pstr (s : String) : PyVal
  | plist (xs : List PyVal) : PyVal
  | pdict (fields : List (String × PyVal)) : PyVal

mutual

/-- Python str(value) for embedded values (numeral rendering abstracted). -/
def pyStr : PyVal → String
  | .pnull => "None"
  | .pbool true => "True"
  | .pbool false => "False"
  | .pnum q => toString q
  | .pstr s => s
  | .plist xs => "[" ++ String.intercalate ", " (pyReprList xs) ++ "]"
  | .pdict fs => "\x7b" ++ String.intercalate ", " (pyReprFields fs) ++ "\x7d"

/-- Python repr(value), as used for elements inside str(list)/str(dict). -/
def pyRepr : PyVal → String
  | .pnull => "None"
  | .pbool true => "True"
  | .pbool false => "False"
  | .pnum q => toString q
  | .pstr s => "\x27" ++ s ++ "\x27"
  | .plist xs => "[" ++ String.intercalate ", " (pyReprList xs) ++ "]"
  | .pdict fs => "\x7b" ++ String.intercalate ", " (pyReprFields fs) ++ "\x7d"

def pyReprList : List PyVal → List String
  | [] => []
  | x :: xs => pyRepr x :: pyReprList xs

def pyReprFields : List (String × PyVal) → List String
  | [] => []
  | (k, v) :: xs => ("\x27" ++ k ++ "\x27: " ++ pyRepr v) :: pyReprFields xs

end

mutual

/-- InstructionCompiler._substitute_params: replaces each occurrence of
the placeholder text brace-key-brace in every string of the template, for
each (key, value) of params in insertion order, recursing through dict
values and list elements; other values pass through unchanged. -/
def substituteParams (template : PyVal) (params : List (String × PyVal)) : PyVal :=
  match template with
  | .pstr s =>
      .pstr (params.foldl
        (fun acc kv => pyReplace acc ("\x7b" ++ kv.1 ++ "\x7d") (pyStr kv.2)) s)
  | .pdict fs => .pdict (substFields fs params)
  | .plist xs => .plist (substList xs params)
  | other => other

def substList (xs : List PyVal) (params : List (String × PyVal)) : List PyVal :=
  match xs with
  | [] => []
  | x :: rest => substituteParams x params :: substList rest params

/-- Substitution over the fields of a dict template: values are
substituted, keys are left untouched. -/
def substFields (fs : List (String × PyVal)) (params : List (String × PyVal)) :
    List (String × PyVal) :=
  match fs with
  | [] => []
  | (k, v) :: rest => (k, substituteParams v params) :: substFields rest params

end

/-- One template step of a composite's sequence: seq_item["instruction"]
and seq_item.get("params", defaulting to the empty dict).  The JSON data
always carries the instruction key as a string and params as a dict. -/
structure SeqStep where
  instruction : String
  params : List (String × PyVal) := []

/-- A stored instruction definition.  Keys absent from the JSON map to the
field defaults used by the corresponding .get calls: description defaults
to the empty string and confidence (read via .get("confidence", 1.0)) is
an Option resolved with default 1 at use sites. -/
structure InstrDef where
  description : String := ""
  parameters : List (String × String) := []
  sequence : List SeqStep := []
  llmVisible : Bool := false
  learned : Bool := false
  confidence : Option ℚ := none
  sourcePhrase : String := ""
  learnedAt : String := ""

/-- The instruction-set document: primitives, composites and
learned_composites maps keyed by name. -/
structure InstructionSet where
  primitives : List (String × InstrDef) := []
  composites : List (String × InstrDef) := []
  learnedComposites : List (String × InstrDef) := []

/-- Python dict merge of two duplicate-free dicts (the double-splat of
get_composites): bindings of the first dict with values overridden by the
second where both have the key, followed by the second dict's new keys. -/
def mergeDicts {α : Type} (m1 m2 : List (String × α)) : List (String × α) :=
  (m1.map fun kv => (kv.1, (lookupA m2 kv.1).getD kv.2)) ++
    m2.filter fun kv => (lookupA m1 kv.1).isNone

/-- InstructionCompiler.get_primitives: the primitives map with metadata
keys (leading underscore) excluded. -/
def getPrimitives (s : InstructionSet) : List (String × InstrDef) :=
  s.primitives.filter fun kv => !pyStartsWith kv.1 "_"

/-- InstructionCompiler.get_composites: underscore-filtered composites
merged with underscore-filtered learned composites, learned winning. -/
def getComposites (s : InstructionSet) : List (String × InstrDef) :=
  mergeDicts (s.composites.filter fun kv => !pyStartsWith kv.1 "_")
    (s.learnedComposites.filter fun kv => !pyStartsWith kv.1 "_")

/-- An instruction found by get_instruction, tagged with its "type" key:
primitives shadow composites of the same name. -/
inductive TypedInstr where
  | primitive (d : InstrDef) : TypedInstr
  | composite (d : InstrDef) : TypedInstr

/-- InstructionCompiler.get_instruction. -/
def getInstruction (s : InstructionSet) (name : String) : Option TypedInstr :=
  match lookupA (getPrimitives s) name with
  | some d => some (.primitive d)
  | none =>
    match lookupA (getComposites s) name with
    | some d => some (.composite d)
    | none => none

/-- A single resolved step of an execution plan. -/
structure ExecutionStep where
  instruction : String
  params : List (String × PyVal)
  isPrimitive : Bool
  description : String := ""

/-- A compiled execution plan. -/
structure ExecutionPlan where
  steps : List ExecutionStep
  sourceCommand : String
  compositeName : Option String := none
  confidence : ℚ := 1

/-- The source_command string f-formatted from the name and params dict. -/
def fmtCall (name : String) (params : List (String × PyVal)) : String :=
  name ++ "(" ++ pyStr (.pdict params) ++ ")"

/-- InstructionCompiler.compile_instruction, with an explicit fuel bound
on recursion depth.  The Python recursion carries no cycle guard or depth
bound of its own; compileFuel_stable below shows the fuel is immaterial
once it exceeds a rank witnessing acyclicity, which recovers the Python
behavior on acyclic registries.  An unknown name yields none; a failed
nested sub-compilation contributes no steps to the enclosing plan. -/
def compileFuel (s : InstructionSet) :
    Nat → String → List (String × PyVal) → Option ExecutionPlan
  | 0, _, _ => none
  | fuel + 1, name, params =>
    match getInstruction s name with
    | none => none
    | some (.primitive d) =>
        some { steps := [{ instruction := name, params := params,
                           isPrimitive := true, description := d.description }],
               sourceCommand := fmtCall name params,
               confidence := 1 }
    | some (.composite d) =>
        let allSteps := (d.sequence.map fun item =>
          match compileFuel s fuel item.instruction
              (substFields item.params params) with
          | some subPlan => subPlan.steps
          | none => []).flatten
        some { steps := allSteps,
               sourceCommand := fmtCall name params,
               compositeName := some name,
               confidence := d.confidence.getD 1 }

/-- Acyclicity of the composite reference graph, witnessed by a rank
function that strictly decreases from a composite to every instruction its
template sequence references. -/
def RankOk (s : InstructionSet) (rank : String → Nat) : Prop :=
  ∀ name d, getInstruction s name = some (.composite d) →
    ∀ item ∈ d.sequence, rank item.instruction < rank name

theorem compileFuel_stable (s : InstructionSet) (rank : String → Nat)
    (hrank : RankOk s rank) :
    ∀ fuel name params, rank name < fuel →
      compileFuel s fuel name params = compileFuel s (rank name + 1) name params := by
  intro fuel
  induction fuel using Nat.strong_induction_on with
  | _ fuel ih =>
    intro name params hlt
    match fuel, hlt with
    | f + 1, hlt =>
      simp only [compileFuel]
      cases hinstr : getInstruction s name with
      | none => rfl
      | some ti =>
        cases ti with
        | primitive d => rfl
        | composite d =>
          have hsub : ∀ item ∈ d.sequence,
              compileFuel s f item.instruction (substFields item.params params) =
                compileFuel s (rank name) item.instruction
                  (substFields item.params params) := by
            intro item hitem
            have hr : rank item.instruction < rank name := hrank name d hinstr item hitem
            have h1 := ih f (Nat.lt_succ_self f) item.instruction
              (substFields item.params params) (by omega)
            have h2 := ih (rank name) (by omega) item.instruction
              (substFields item.params params) hr
            rw [h1, h2]
          simp only [Option.some.injEq]
          congr 1
          exact congrArg List.flatten (List.map_congr_left fun item hitem => by
            rw [hsub item hitem])

/-- The compiler as a total function on registries whose acyclicity is
witnessed by rank: compile_instruction run with just enough fuel. -/
def compileInstruction (s : InstructionSet) (rank : String → Nat)
    (name : String) (params : List (String × PyVal)) : Option ExecutionPlan :=
  compileFuel s (rank name + 1) name params

/-- C10: on a registry whose composite-to-sub-instruction reference graph
is acyclic — witnessed by a rank strictly decreasing along references —
the fuelled expansion is independent of the fuel once it exceeds the rank
of the compiled name, so compile is definable as the total function
compileInstruction for every instruction name and parameter map.  The
recursion itself (compileFuel) carries no cycle guard or depth bound:
acyclicity alone is what bounds the recursion depth. -/
theorem compile_total_on_acyclic_registry (s : InstructionSet)
    (rank : String → Nat) (hrank : RankOk s rank) (name : String)
    (params : List (String × PyVal)) (fuel : Nat) (hfuel : rank name < fuel) :
    compileFuel s fuel name params = compileInstruction s rank name params :=
  compileFuel_stable s rank hrank fuel name params hfuel

/-- C4: compiling a registered primitive yields the one-step plan whose
single step is exactly that instruction name with the caller's params
(marked primitive, carrying the stored description, confidence 1), at any
recursion budget; compiling a name absent from the registry yields none. -/
theorem compile_primitive_single_step (s : InstructionSet) (P nm : String)
    (d : InstrDef) (params : List (String × PyVal)) (fuel : Nat)
    (hP : getInstruction s P = some (.primitive d))
    (hnm : getInstruction s nm = none) :
    compileFuel s (fuel + 1) P params =
      some { steps := [{ instruction := P, params := params, isPrimitive := true,
                         description := d.description }],
             sourceCommand := fmtCall P params,
             confidence := 1 } ∧
    ∀ f p, compileFuel s f nm p = none := by
  constructor
  · simp [compileFuel, hP]
  · intro f p
    cases f with
    | zero => rfl
    | succ f => simp [compileFuel, hnm]

/-- C3: on an acyclic registry, compiling a composite (one not shadowed by
a primitive of the same name) produces the plan whose steps are the
in-order concatenation of the steps obtained by compiling each template
step with its params template substituted from the caller's params — at
every nesting depth, hence in particular up to 3 levels; and a nested name
absent from the registry compiles to none, so by the concatenation shape
it contributes no steps instead of aborting the enclosing expansion. -/
theorem compile_composite_concatenates (s : InstructionSet)
    (rank : String → Nat) (hrank : RankOk s rank) (C : String) (d : InstrDef)
    (params : List (String × PyVal))
    (hC : getInstruction s C = some (.composite d)) :
    compileInstruction s rank C params =
      some { steps := (d.sequence.map fun item =>
               match compileInstruction s rank item.instruction
                   (substFields item.params params) with
               | some subPlan => subPlan.steps
               | none => []).flatten,
             sourceCommand := fmtCall C params,
             compositeName := some C,
             confidence := d.confidence.getD 1 } ∧
    ∀ nm p, getInstruction s nm = none → compileInstruction s rank nm p = none := by
  constructor
  · simp only [compileInstruction, compileFuel, hC, Option.some.injEq]
    congr 1
    refine congrArg List.flatten (List.map_congr_left fun item hitem => ?_)
    have hr : rank item.instruction < rank C := hrank C d hC item hitem
    rw [compileFuel_stable s rank hrank (rank C) item.instruction
      (substFields item.params params) hr]
    rfl
  · intro nm p h
    simp [compileInstruction, compileFuel, h]

/-! Concrete registry used by the compiler witnesses: the move_to and
gripper_close primitives plus the pick_up composite of the spec's
compilation scenario. -/

def moveToDef : InstrDef := { description := "Move to a named location" }

def gripperCloseDef : InstrDef := {}

def pickUpDef : InstrDef :=
  { sequence := [{ instruction := "move_to",
                   params := [("location", .pstr "\x7bitem\x7d_slot")] },
                 { instruction := "gripper_close" }] }

def regW : InstructionSet :=
  { primitives := [("move_to", moveToDef), ("gripper_close", gripperCloseDef)],
    composites := [("pick_up", pickUpDef)] }

def rankW : String → Nat := fun n => if n = "pick_up" then 1 else 0

theorem rankOkW : RankOk regW rankW := by
  intro name d h item hitem
  have hgp : getPrimitives regW = [("move_to", moveToDef), ("gripper_close", gripperCloseDef)] := rfl
  have hgc : getComposites regW = [("pick_up", pickUpDef)] := rfl
  simp only [getInstruction, hgp, hgc, lookupA] at h
  by_cases h1 : "move_to" = name
  · simp [h1.symm] at h
  · by_cases h2 : "gripper_close" = name
    · simp [if_neg h1, h2.symm] at h
    · by_cases h3 : "pick_up" = name
      · subst h3
        simp only [if_neg h1, if_neg h2, if_pos rfl, Option.some.injEq] at h
        obtain rfl : pickUpDef = d := by
          cases h1 : h
          rfl
        simp only [pickUpDef, List.mem_cons, List.not_mem_nil, or_false] at hitem
        rcases hitem with rfl | rfl <;> decide
      · simp [if_neg h1, if_neg h2, if_neg h3] at h

/-- Witness for C10: with fuel 5 the expansion of pick_up agrees with the
stably-defined total compile on the witness registry. -/
theorem compile_total_on_acyclic_registry_witness :
    compileFuel regW 5 "pick_up" [("item", PyVal.pstr "cheese")] =
      compileInstruction regW rankW "pick_up" [("item", PyVal.pstr "cheese")] :=
  compile_total_on_acyclic_registry regW rankW rankOkW "pick_up"
    [("item", PyVal.pstr "cheese")] 5 (by decide)

/-- Witness for C4: compiling the primitive move_to yields exactly its
one-step plan, and compiling the unregistered name place_at yields none. -/
theorem compile_primitive_single_step_witness :
    compileFuel regW 1 "move_to" [("location", PyVal.pstr "home")] =
      some { steps := [{ instruction := "move_to",
                         params := [("location", PyVal.pstr "home")],
                         isPrimitive := true,
                         description := "Move to a named location" }],
             sourceCommand := fmtCall "move_to" [("location", PyVal.pstr "home")],
             confidence := 1 } ∧
    compileFuel regW 7 "place_at" [] = none := by
  have h := compile_primitive_single_step regW "move_to" "place_at" moveToDef
    [("location", PyVal.pstr "home")] 0 rfl rfl
  exact ⟨h.1, h.2 7 []⟩

/-- Witness for C3: compile("pick_up", item=cheese) on the witness registry
is the concatenation of the compiled, parameter-substituted template steps:
move_to(location="cheese_slot") then gripper_close(). -/
theorem compile_composite_concatenates_witness :
    compileInstruction regW rankW "pick_up" [("item", PyVal.pstr "cheese")] =
      some { steps := [{ instruction := "move_to",
                         params := [("location", PyVal.pstr "cheese_slot")],
                         isPrimitive := true,
                         description := "Move to a named location" },
                       { instruction := "gripper_close", params := [],
                         isPrimitive := true, description := "" }],
             sourceCommand := fmtCall "pick_up" [("item", PyVal.pstr "cheese")],
             compositeName := some "pick_up",
             confidence := 1 } := by
  have h := (compile_composite_concatenates regW rankW rankOkW "pick_up" pickUpDef
    [("item", PyVal.pstr "cheese")] rfl).1
  rw [h]
  rfl

/-! ## Learning new composites — InstructionCompiler.learn_composite
(instruction_compiler.py, lines 262-307).

The validation loop returns false at the first step whose referenced
instruction is unknown, before any mutation; only when every referenced
instruction resolves is the composite written into the composites map and
the document re-saved.  The wall-clock learned_at stamp is passed in
explicitly; re-persisting to disk happens only on the successful branch,
so the returned instruction set captures both the in-memory and the
persisted registry. -/

/-- InstructionCompiler.learn_composite, returning the success flag and
the resulting instruction set. -/
def learnComposite (s : InstructionSet) (name description : String)
    (parameters : List (String × String)) (sequence : List SeqStep)
    (confidence : ℚ) (sourcePhrase : String) (now : String) :
    Bool × InstructionSet :=
  let newDef : InstrDef :=
    { description := description, parameters := parameters,
      sequence := sequence, learned := true,
      confidence := some confidence, sourcePhrase := sourcePhrase,
      learnedAt := now }
  if sequence.all fun step => (getInstruction s step.instruction).isSome then
    (true, { s with composites := setA s.composites name newDef })
  else
    (false, s)

/-- C5: learn_composite returns false and leaves the instruction set
(in-memory and, since saving only happens after the mutation, persisted)
completely unchanged whenever some step of the sequence references an
instruction unknown in the registry at call time; when every referenced
instruction exists it returns true and the composites map afterwards binds
the new name to the learned composite definition. -/
theorem learnComposite_rejects_unknown_refs (s : InstructionSet)
    (name description : String) (parameters : List (String × String))
    (sequence : List SeqStep) (confidence : ℚ) (sourcePhrase now : String) :
    ((∃ step ∈ sequence, getInstruction s step.instruction = none) →
      learnComposite s name description parameters sequence confidence
        sourcePhrase now = (false, s)) ∧
    ((∀ step ∈ sequence, (getInstruction s step.instruction).isSome) →
      (learnComposite s name description parameters sequence confidence
          sourcePhrase now).1 = true ∧
      lookupA (learnComposite s name description parameters sequence confidence
          sourcePhrase now).2.composites name =
        some { description := description, parameters := parameters,
               sequence := sequence, learned := true,
               confidence := some confidence, sourcePhrase := sourcePhrase,
               learnedAt := now }) := by
  constructor
  · rintro ⟨step, hmem, hnone⟩
    have hall : ¬ sequence.all fun st => (getInstruction s st.instruction).isSome := by
      simp only [List.all_eq_true, not_forall]
      exact ⟨step, hmem, by simp [hnone]⟩
    simp [learnComposite, hall]
  · intro hall
    have hall2 : sequence.all fun st => (getInstruction s st.instruction).isSome := by
      simp only [List.all_eq_true]
      intro st hst
      exact hall st hst
    refine ⟨by simp [learnComposite, hall2], ?_⟩
    simp only [learnComposite, hall2, if_pos]
    exact lookupA_setA_self _ _ _

/-- Witness for C5: learning blt = [add_layer; serve] fails on a registry
knowing only move_to (no mutation), while learning go = [move_to] on the
same registry succeeds and binds the new composite under its name. -/
theorem learnComposite_rejects_unknown_refs_witness :
    learnComposite regW "blt" "" [] [{ instruction := "add_layer" }] 1 "" "t0" =
      (false, regW) ∧
    (learnComposite regW "go" "" [] [{ instruction := "move_to" }] 1 "" "t0").1 =
      true := by
  constructor
  · exact (learnComposite_rejects_unknown_refs regW "blt" "" [] [{ instruction := "add_layer" }]
      1 "" "t0").1 ⟨{ instruction := "add_layer" }, by simp, rfl⟩
  · exact ((learnComposite_rejects_unknown_refs regW "go" "" [] [{ instruction := "move_to" }]
      1 "" "t0").2 (by intro st hst; simp at hst; subst hst; rfl)).1

/-! ## Phrase bank — PhraseBank (phrase_bank.py).

Text processing is embedded over character lists with ASCII semantics for
the character classes the regexes use (the stored phrases and commands are
ASCII).  difflib.SequenceMatcher is embedded junk-free, which coincides
with CPython for the strings involved here (autojunk only affects second
strings of length at least 200). -/

/-- ASCII lowercasing of one character, the effect of Python str.lower on
the ASCII range. -/
def pyCharLower (c : Char) : Char :=
  if 65 ≤ c.toNat ∧ c.toNat ≤ 90 then Char.ofNat (c.toNat + 32) else c

/-- Python str.lower over the character list. -/
def pyLowerL (l : List Char) : List Char :=
  l.map pyCharLower

/-- The character class of the regex backslash-d (ASCII digits). -/
def pyIsDigit (c : Char) : Bool :=
  decide (48 ≤ c.toNat) && decide (c.toNat ≤ 57)

/-- Python whitespace, the class of the regex backslash-s (ASCII). -/
def pyIsSpace (c : Char) : Bool :=
  c = ' ' || c = '\t' || c = '\n' || c = '\x0d' || c = '\x0b' || c = '\x0c'

/-- The regex word class backslash-w (ASCII): letters, digits, underscore. -/
def pyIsWordChar (c : Char) : Bool :=
  (decide (97 ≤ c.toNat) && decide (c.toNat ≤ 122)) ||
  (decide (65 ≤ c.toNat) && decide (c.toNat ≤ 90)) ||
  pyIsDigit c || c = '_'

/-- Python str.strip(): whitespace removed from both ends. -/
def pyStripL (l : List Char) : List Char :=
  ((l.dropWhile pyIsSpace).reverse.dropWhile pyIsSpace).reverse

/-- re.sub of one-or-more whitespace by a single space: each maximal
whitespace run collapses to one space.  The flag records whether the
previous character was part of a run already emitted. -/
def collapseSpacesAux (prevSpace : Bool) : List Char → List Char
  | [] => []
  | c :: cs =>
    if pyIsSpace c then
      if prevSpace then collapseSpacesAux true cs
      else ' ' :: collapseSpacesAux true cs
    else c :: collapseSpacesAux false cs

def collapseSpaces (l : List Char) : List Char :=
  collapseSpacesAux false l

/-- PhraseBank.normalize: lowercase and strip, remove every character that
is not word/whitespace/hyphen, collapse whitespace runs to single spaces. -/
def normalize (text : String) : String :=
  ⟨collapseSpaces (((pyStripL (pyLowerL text.data)).filter
    fun c => pyIsWordChar c || pyIsSpace c || c = '-'))⟩

/-! The distance regex of PhraseBank.extract_distance: digits, an optional
fraction, optional whitespace, then an optional unit tried in the
alternation order centimeters? / cm / millimeters? / mm. -/

/-- Value of a digit run as a natural number. -/
def digitsToNat (l : List Char) : Nat :=
  l.foldl (fun acc c => acc * 10 + (c.toNat - 48)) 0

/-- The number denoted by integer digits and (possibly empty) fraction
digits, exactly the float() of the matched group. -/
def parseNumber (intPart fracPart : List Char) : ℚ :=
  (digitsToNat intPart : ℚ) + (digitsToNat fracPart : ℚ) / (10 : ℚ) ^ fracPart.length

/-- Consume the optional unit alternation at the head of l, returning the
rest when one alternative matches. -/
def tryUnitAlt (l : List Char) : Option (List Char) :=
  if strStartsWithL l ("centimeters".data) then some (l.drop 11)
  else if strStartsWithL l ("centimeter".data) then some (l.drop 10)
  else if strStartsWithL l ("cm".data) then some (l.drop 2)
  else if strStartsWithL l ("millimeters".data) then some (l.drop 11)
  else if strStartsWithL l ("millimeter".data) then some (l.drop 10)
  else if strStartsWithL l ("mm".data) then some (l.drop 2)
  else none

/-- Match the distance pattern anchored at the head of l: on success,
the numeric value of group 1 and the rest of the input after the whole
match (digits, optional dot-fraction, greedy whitespace, optional unit). -/
def matchNumAt (l : List Char) : Option (ℚ × List Char) :=
  let ds := l.takeWhile pyIsDigit
  if ds.isEmpty then none
  else
    let r1 := l.dropWhile pyIsDigit
    let fr : List Char × List Char :=
      match r1 with
      | '.' :: r =>
        if (r.takeWhile pyIsDigit).isEmpty then ([], r1)
        else (r.takeWhile pyIsDigit, r.dropWhile pyIsDigit)
      | _ => ([], r1)
    let r3 := fr.2.dropWhile pyIsSpace
    let rest := (tryUnitAlt r3).getD r3
    some (parseNumber ds fr.1, rest)

/-- re.search of the distance pattern: the leftmost match's value. -/
def searchNumber : List Char → Option ℚ
  | [] => none
  | c :: cs =>
    match matchNumAt (c :: cs) with
    | some (q, _) => some q
    | none => searchNumber cs

/-- re.sub of the distance pattern by the empty string: every
non-overlapping match removed scanning left to right.  Each match consumes
at least one character, so the input length bounds the recursion. -/
def removeNumberMatches : Nat → List Char → List Char
  | 0, l => l
  | _ + 1, [] => []
  | fuel + 1, c :: cs =>
    match matchNumAt (c :: cs) with
    | some (_, rest) => removeNumberMatches fuel rest
    | none => c :: removeNumberMatches fuel cs

/-- Substring containment, Python in-operator on strings. -/
def containsL (l pat : List Char) : Bool :=
  match l with
  | [] => pat.isEmpty
  | _ :: cs => strStartsWithL l pat || containsL cs pat

/-- PhraseBank.extract_distance: lowercases, finds the first number
(converting to centimeters when the text mentions millimeters anywhere),
and returns the lowercased text with all pattern matches removed, stripped
and whitespace-collapsed; without a number the lowercased text is returned
unchanged. -/
def extractDistance (text : String) : String × Option ℚ :=
  let tl := pyLowerL text.data
  match searchNumber tl with
  | some q =>
    let q := if containsL tl ("millimeter".data) || containsL tl ("mm".data)
      then q / 10 else q
    (⟨collapseSpaces (pyStripL (removeNumberMatches tl.length tl))⟩, some q)
  | none => (⟨tl⟩, none)

/-! difflib.SequenceMatcher(None, a, b).ratio(), junk-free. -/

/-- One row (fixed index i into a, character ai) of find_longest_match's
dynamic program: for each index j of b in [blo, bhi) with b[j] = ai in
ascending order, the run length ending at (i, j) extends the run ending at
(i-1, j-1); the best (start-in-a, start-in-b, size) triple is updated when
a longer run appears.  Returns the new run-length table and best triple. -/
def flmRow (i : Nat) (ai : Char) (b : List Char) (blo bhi : Nat)
    (j2len : Nat → Nat) (best : Nat × Nat × Nat) :
    (Nat → Nat) × (Nat × Nat × Nat) :=
  let js := (List.range bhi).filter fun j => decide (blo ≤ j) && (b[j]? == some ai)
  js.foldl
    (fun acc j =>
      let k := (if j = 0 then 0 else j2len (j - 1)) + 1
      let newTable : Nat → Nat := fun x => if x = j then k else acc.1 x
      if k > acc.2.2.2 then (newTable, (i + 1 - k, j + 1 - k, k))
      else (newTable, acc.2))
    ((fun _ => 0), best)

/-- SequenceMatcher.find_longest_match on the windows [alo, ahi) of a and
[blo, bhi) of b, with no junk (the junk-extension loops are no-ops). -/
def flm (a b : List Char) (alo ahi blo bhi : Nat) : Nat × Nat × Nat :=
  ((List.range' alo (ahi - alo)).foldl
    (fun (acc : (Nat → Nat) × (Nat × Nat × Nat)) i =>
      match a[i]? with
      | some ai => flmRow i ai b blo bhi acc.1 acc.2
      | none => ((fun _ => 0), acc.2))
    ((fun _ => 0), (alo, blo, 0))).2

/-- Total size of the matching blocks of get_matching_blocks: the longest
match splits the windows and the recursion sums the sizes on both sides.
Each recursive call strictly shrinks the combined window, so the combined
input length bounds the depth; structural fuel keeps it kernel-reducible. -/
def matchSumFuel (a b : List Char) : Nat → Nat → Nat → Nat → Nat → Nat
  | 0, _, _, _, _ => 0
  | fuel + 1, alo, ahi, blo, bhi =>
    match flm a b alo ahi blo bhi with
    | (i, j, size) =>
      if size = 0 then 0
      else size + matchSumFuel a b fuel alo i blo j +
        matchSumFuel a b fuel (i + size) ahi (j + size) bhi

/-- SequenceMatcher.ratio(): 2M / T with M the total matched characters
and T the combined length; 1.0 when both strings are empty. -/
def ratioL (a b : List Char) : ℚ :=
  let m := matchSumFuel a b (a.length + b.length + 1) 0 a.length 0 b.length
  if a.length + b.length = 0 then 1
  else 2 * (m : ℚ) / ((a.length : ℚ) + (b.length : ℚ))

/-- PhraseBank.similarity. -/
def similarity (a b : String) : ℚ :=
  ratioL a.data b.data

/-- One stored phrase-bank entry (the dict built by add_phrase). -/
structure PhraseEntry where
  intent : String
  parameters : List (String × PyVal)
  source : String
  learnedAt : String
  confirmed : Bool

/-- The phrase-bank document restricted to the phrases section; the
intents/locations/meta sections play no part in lookup or add_phrase. -/
structure BankData where
  phrases : List (String × PhraseEntry)

/-- The module-level configuration phrase_bank.py imports: the fuzzy
enable flag and both thresholds.  FUZZY_MATCH_THRESHOLD defaults to 0.6 in
config.py; ENABLE_FUZZY_MATCHING and FUZZY_CONFIRM_THRESHOLD are imported
by phrase_bank.py but not defined in this snapshot of config.py, so they
stay parameters of the model. -/
structure BankConfig where
  enableFuzzy : Bool
  matchThreshold : ℚ
  confirmThreshold : ℚ

/-- The distance merge applied to a matched entry before returning it: the
extracted distance overrides parameters["distance"] only when a distance
was extracted and the entry's parameters contain a "direction" key.
(The Python code mutates the shallow copy's shared parameters dict; the
returned value is modelled, the aliasing side effect is not claimed.) -/
def mergeDistance (entry : PhraseEntry) (dist : Option ℚ) : PhraseEntry :=
  match dist with
  | none => entry
  | some d =>
    if (lookupA entry.parameters "direction").isSome then
      { entry with parameters := setA entry.parameters "distance" (.pnum d) }
    else entry

/-- PhraseBank.lookup: extract the distance, normalize, try exact match,
then scan every stored phrase for the best similarity score and compare it
against the two thresholds.  When a threshold branch is reached with no
candidate at all (an empty bank), the Python code raises on None.copy();
the model returns a none result there, and no claim concerns that case. -/
def lookup (cfg : BankConfig) (bank : BankData) (utterance : String) :
    Option PhraseEntry × ℚ × Bool :=
  let ed := extractDistance utterance
  let normalized := normalize ed.1
  match lookupA bank.phrases normalized with
  | some data => (some (mergeDistance data ed.2), 1, false)
  | none =>
    if cfg.enableFuzzy then
      let best := bank.phrases.foldl
        (fun (acc : ℚ × Option PhraseEntry) kv =>
          let score := similarity normalized kv.1
          if score > acc.1 then (score, some kv.2) else acc)
        (0, none)
      if best.1 ≥ cfg.matchThreshold then
        (best.2.map fun d => mergeDistance d ed.2, best.1, false)
      else if best.1 ≥ cfg.confirmThreshold then
        (best.2.map fun d => mergeDistance d ed.2, best.1, true)
      else (none, 0, false)
    else (none, 0, false)

/-- PhraseBank.add_phrase: refuses (returns false, no change) when an
entry already exists under the normalized phrase, otherwise stores the new
entry under the normalized phrase and returns true. -/
def addPhrase (bank : BankData) (phrase intent : String)
    (parameters : List (String × PyVal)) (source : String) (confirmed : Bool)
    (now : String) : Bool × BankData :=
  let normalized := normalize phrase
  if (lookupA bank.phrases normalized).isSome then
    (false, bank)
  else
    (true, { bank with phrases := bank.phrases ++
        [(normalized, { intent := intent, parameters := parameters,
                        source := source, learnedAt := now,
                        confirmed := confirmed })] })

theorem pyCharLower_toNat_of_upper (c : Char) (h1 : 65 ≤ c.toNat)
    (h2 : c.toNat ≤ 90) : (Char.ofNat (c.toNat + 32)).toNat = c.toNat + 32 := by
  have hv : Nat.isValidChar (c.toNat + 32) := Or.inl (by omega)
  rw [Char.ofNat, dif_pos hv]
  simp [Char.ofNatAux, Char.toNat, UInt32.toNat]

theorem pyCharLower_idem (c : Char) :
    pyCharLower (pyCharLower c) = pyCharLower c := by
  unfold pyCharLower
  by_cases h : 65 ≤ c.toNat ∧ c.toNat ≤ 90
  · rw [if_pos h, if_neg]
    rw [pyCharLower_toNat_of_upper c h.1 h.2]
    omega
  · rw [if_neg h, if_neg h]

theorem pyLowerL_idem (l : List Char) : pyLowerL (pyLowerL l) = pyLowerL l := by
  simp only [pyLowerL, List.map_map]
  exact List.map_congr_left fun c _ => pyCharLower_idem c

theorem normalize_pyLowerL (s : String) :
    normalize ⟨pyLowerL s.data⟩ = normalize s := by
  simp only [normalize, pyLowerL_idem]

theorem pyCharLower_not_digit (c : Char) (h : pyIsDigit c = false) :
    pyIsDigit (pyCharLower c) = false := by
  unfold pyCharLower
  by_cases hu : 65 ≤ c.toNat ∧ c.toNat ≤ 90
  · rw [if_pos hu]
    simp only [pyIsDigit, pyCharLower_toNat_of_upper c hu.1 hu.2]
    simp only [Bool.and_eq_false_iff, decide_eq_false_iff_not, not_le]
    omega
  · rw [if_neg hu]
    exact h

theorem searchNumber_none (l : List Char) (h : ∀ c ∈ l, pyIsDigit c = false) :
    searchNumber l = none := by
  induction l with
  | nil => rfl
  | cons c cs ih =>
    have hc : pyIsDigit c = false := h c (List.mem_cons_self _ _)
    have hm : matchNumAt (c :: cs) = none := by
      simp [matchNumAt, List.takeWhile, hc]
    simp only [searchNumber, hm]
    exact ih fun x hx => h x (List.mem_cons_of_mem _ hx)

theorem extractDistance_no_digit (phrase : String)
    (h : ∀ c ∈ phrase.data, pyIsDigit c = false) :
    extractDistance phrase = (⟨pyLowerL phrase.data⟩, none) := by
  have hs : searchNumber (pyLowerL phrase.data) = none := by
    refine searchNumber_none _ fun c hc => ?_
    simp only [pyLowerL, List.mem_map] at hc
    obtain ⟨c0, hc0, rfl⟩ := hc
    exact pyCharLower_not_digit c0 (h c0 hc0)
  simp [extractDistance, hs]

theorem lookupA_append_right {α : Type} (m : List (String × α)) (k : String)
    (v : α) (h : lookupA m k = none) :
    lookupA (m ++ [(k, v)]) k = some v := by
  induction m with
  | nil => simp [lookupA]
  | cons hd tl ih =>
    obtain ⟨k1, v1⟩ := hd
    by_cases hk : k1 = k
    · simp [lookupA, hk] at h
    · simp only [lookupA, hk, if_false, List.cons_append] at h ⊢
      exact ih h

theorem lookupA_mem {α : Type} (m : List (String × α)) (k : String) (v : α)
    (h : lookupA m k = some v) : (k, v) ∈ m := by
  induction m with
  | nil => simp [lookupA] at h
  | cons hd tl ih =>
    obtain ⟨k1, v1⟩ := hd
    by_cases hk : k1 = k
    · subst hk
      have hv : v1 = v := by simpa [lookupA] using h
      subst hv
      exact List.mem_cons_self _ _
    · simp only [lookupA, hk, if_false] at h
      exact List.mem_cons_of_mem _ (ih h)

/-- C7 counterexample: the claim says learn inserts or overwrites, so that
after the call the entry under the normalized phrase is the newly supplied
result even when one existed.  With "go back" already stored mapping to
intent move_backward, add_phrase("go back", "other_intent") returns false
and the stored entry still carries the old intent, not the new one. -/
theorem addPhrase_overwrite_counterexample :
    addPhrase ⟨[("go back", ⟨"move_backward", [], "learned", "t0", true⟩)]⟩
        "go back" "other_intent" [] "learned" true "t1" =
      (false, ⟨[("go back", ⟨"move_backward", [], "learned", "t0", true⟩)]⟩) ∧
    lookupA (addPhrase ⟨[("go back", ⟨"move_backward", [], "learned", "t0", true⟩)]⟩
        "go back" "other_intent" [] "learned" true "t1").2.phrases
        (normalize "go back") =
      some ⟨"move_backward", [], "learned", "t0", true⟩ ∧
    "move_backward" ≠ "other_intent" := by
  refine ⟨rfl, rfl, by decide⟩

/-- C7 as amended: add_phrase inserts the entry under the normalized
phrase and returns true when no entry exists there yet; when an entry for
the normalized phrase already exists it returns false and leaves the bank,
in particular the existing entry, unchanged — it never overwrites. -/
theorem addPhrase_insert_or_reject (bank : BankData) (phrase intent : String)
    (parameters : List (String × PyVal)) (source : String) (confirmed : Bool)
    (now : String) :
    (lookupA bank.phrases (normalize phrase) = none →
      addPhrase bank phrase intent parameters source confirmed now =
        (true, ⟨bank.phrases ++
          [(normalize phrase, ⟨intent, parameters, source, now, confirmed⟩)]⟩) ∧
      lookupA (addPhrase bank phrase intent parameters source confirmed
          now).2.phrases (normalize phrase) =
        some ⟨intent, parameters, source, now, confirmed⟩) ∧
    (∀ e, lookupA bank.phrases (normalize phrase) = some e →
      addPhrase bank phrase intent parameters source confirmed now =
        (false, bank)) := by
  constructor
  · intro h
    have hnone : (lookupA bank.phrases (normalize phrase)).isSome = false := by
      simp [h]
    refine ⟨by simp [addPhrase, hnone], ?_⟩
    simp only [addPhrase, hnone, Bool.false_eq_true, if_false]
    exact lookupA_append_right _ _ _ h
  · intro e h
    have hsome : (lookupA bank.phrases (normalize phrase)).isSome = true := by
      simp [h]
    simp [addPhrase, hsome]

/-- Witness for the amended C7: inserting "go home" into an empty bank
succeeds and a second insertion under the same normalized phrase is
rejected without change. -/
theorem addPhrase_insert_or_reject_witness :
    addPhrase ⟨[]⟩ "go home" "go_home" [] "learned" true "t0" =
      (true, ⟨[("go home", ⟨"go_home", [], "learned", "t0", true⟩)]⟩) ∧
    addPhrase ⟨[("go home", ⟨"go_home", [], "learned", "t0", true⟩)]⟩
        "go home" "go_home2" [] "learned" true "t1" =
      (false, ⟨[("go home", ⟨"go_home", [], "learned", "t0", true⟩)]⟩) := by
  constructor
  · exact ((addPhrase_insert_or_reject ⟨[]⟩ "go home" "go_home" [] "learned"
      true "t0").1 rfl).1
  · exact (addPhrase_insert_or_reject
      ⟨[("go home", ⟨"go_home", [], "learned", "t0", true⟩)]⟩
      "go home" "go_home2" [] "learned" true "t1").2
      ⟨"go_home", [], "learned", "t0", true⟩ rfl

/-! Concrete phrase-bank data for the C8/C9 theorems. -/

def entryMR : PhraseEntry :=
  ⟨"move", [("direction", .pstr "right"), ("distance", .pnum 5)], "learned", "t0", true⟩

def bankMR : BankData := ⟨[("move right 5 cm", entryMR)]⟩

/-- FUZZY_MATCH_THRESHOLD 0.6 from config.py; fuzzy matching enabled and a
confirm threshold of 0.5 chosen for the unspecified parameters. -/
def cfgMR : BankConfig := ⟨true, 3/5, 1/2⟩

def entryGB : PhraseEntry :=
  ⟨"move_backward", [("distance", .pnum 3)], "learned", "t0", true⟩

def bankGB : BankData := ⟨[("go back", entryGB)]⟩

/-- C8 counterexample: the claim promises that any phrase added via the
learning path is later found by lookup as an exact match with confidence
1.0.  For the phrase "move right 5 cm" (which contains a numeric
distance), add_phrase stores the key "move right 5 cm" but lookup strips
the distance before matching and looks up "move right": the exact match
misses and the fuzzy scan returns the entry with confidence 4/5, not 1. -/
theorem lookup_after_learn_counterexample :
    addPhrase ⟨[]⟩ "move right 5 cm" "move"
        [("direction", PyVal.pstr "right"), ("distance", PyVal.pnum 5)]
        "learned" true "t0" = (true, bankMR) ∧
    lookup cfgMR bankMR "move right 5 cm" = (some entryMR, 4/5, false) ∧
    (4 : ℚ)/5 ≠ 1 := by
  refine ⟨rfl, ?_, by norm_num⟩
  have hsim : similarity "move right" "move right 5 cm" = 4/5 := by
    rw [show similarity "move right" "move right 5 cm" =
      (if (10 + 15 : Nat) = 0 then (1 : ℚ)
       else 2 * ((10 : Nat) : ℚ) / (((10 : Nat) : ℚ) + ((15 : Nat) : ℚ))) from rfl]
    norm_num
  have hpn : parseNumber ['5'] [] = 5 := by
    rw [show parseNumber ['5'] [] =
      ((5 : Nat) : ℚ) + ((0 : Nat) : ℚ) / (10 : ℚ) ^ (0 : Nat) from rfl]
    norm_num
  have hstep : lookup cfgMR bankMR "move right 5 cm" =
      (let score := similarity "move right" "move right 5 cm"
       let best : ℚ × Option PhraseEntry :=
         if score > 0 then (score, some entryMR) else (0, none)
       if best.1 ≥ 3/5 then
         (best.2.map fun d => mergeDistance d (some (parseNumber ['5'] [])),
           best.1, false)
       else if best.1 ≥ 1/2 then
         (best.2.map fun d => mergeDistance d (some (parseNumber ['5'] [])),
           best.1, true)
       else (none, 0, false)) := rfl
  rw [hstep, hsim, hpn]
  norm_num
  try rfl

/-- C8 as amended: for a phrase containing no digit (so that the distance
extraction leaves it untouched) and not already stored, a lookup after
add_phrase returns the stored entry itself as an exact match with
confidence 1.0 and no confirmation required. -/
theorem addPhrase_then_exact_lookup (cfg : BankConfig) (bank : BankData)
    (phrase intent : String) (parameters : List (String × PyVal))
    (source : String) (confirmed : Bool) (now : String)
    (hnd : ∀ c ∈ phrase.data, pyIsDigit c = false)
    (habs : lookupA bank.phrases (normalize phrase) = none) :
    lookup cfg (addPhrase bank phrase intent parameters source confirmed now).2
        phrase =
      (some ⟨intent, parameters, source, now, confirmed⟩, 1, false) := by
  have hbank : (addPhrase bank phrase intent parameters source confirmed now).2 =
      ⟨bank.phrases ++
        [(normalize phrase, ⟨intent, parameters, source, now, confirmed⟩)]⟩ := by
    have hnone : (lookupA bank.phrases (normalize phrase)).isSome = false := by
      simp [habs]
    simp [addPhrase, hnone]
  have hed := extractDistance_no_digit phrase hnd
  have hlk := lookupA_append_right bank.phrases (normalize phrase)
    (⟨intent, parameters, source, now, confirmed⟩ : PhraseEntry) habs
  simp only [lookup, hbank, hed, normalize_pyLowerL, hlk]
  rfl

/-- Witness for the amended C8: "hello there" learned into an empty bank
is found again as an exact match with confidence 1. -/
theorem addPhrase_then_exact_lookup_witness :
    lookup cfgMR (addPhrase ⟨[]⟩ "hello there" "greet" [] "learned" true
        "t0").2 "hello there" =
      (some ⟨"greet", [], "learned", "t0", true⟩, 1, false) :=
  addPhrase_then_exact_lookup cfgMR ⟨[]⟩ "hello there" "greet" [] "learned"
    true "t0" (by decide) rfl

/-- C9 counterexample: the claim promises the explicit distance in the
input overrides the matched entry's stored numeric distance parameter.
The entry for "go back" stores distance 3 but no direction parameter;
looking up "go back 7" parses distance 7, matches exactly, yet returns the
entry with its stored distance 3 — the override is skipped because the
merge requires a "direction" key in the entry's parameters. -/
theorem lookup_distance_override_counterexample :
    (extractDistance "go back 7").2 = some 7 ∧
    lookup cfgMR bankGB "go back 7" = (some entryGB, 1, false) ∧
    lookupA entryGB.parameters "distance" = some (PyVal.pnum 3) ∧
    (3 : ℚ) ≠ 7 := by
  refine ⟨?_, rfl, rfl, by norm_num⟩
  rw [show (extractDistance "go back 7").2 = some (parseNumber ['7'] []) from rfl,
    show parseNumber ['7'] [] =
      ((7 : Nat) : ℚ) + ((0 : Nat) : ℚ) / (10 : ℚ) ^ (0 : Nat) from rfl]
  norm_num

theorem lookup_best_mem (normalized : String)
    (l : List (String × PhraseEntry)) :
    ∀ acc : ℚ × Option PhraseEntry,
      (l.foldl
        (fun (acc : ℚ × Option PhraseEntry) kv =>
          if similarity normalized kv.1 > acc.1
          then (similarity normalized kv.1, some kv.2) else acc) acc).2 = acc.2 ∨
      ∃ p e, (p, e) ∈ l ∧
        (l.foldl
          (fun (acc : ℚ × Option PhraseEntry) kv =>
            if similarity normalized kv.1 > acc.1
            then (similarity normalized kv.1, some kv.2) else acc) acc).2 = some e := by
  induction l with
  | nil => intro acc; exact Or.inl rfl
  | cons hd tl ih =>
    intro acc
    simp only [List.foldl_cons]
    by_cases hgt : similarity normalized hd.1 > acc.1
    · rcases ih (similarity normalized hd.1, some hd.2) with h | ⟨p, e, hmem, he⟩
      · refine Or.inr ⟨hd.1, hd.2, List.mem_cons_self _ _, ?_⟩
        rw [if_pos hgt]
        simpa using h
      · exact Or.inr ⟨p, e, List.mem_cons_of_mem _ hmem, by rw [if_pos hgt]; exact he⟩
    · rcases ih acc with h | ⟨p, e, hmem, he⟩
      · exact Or.inl (by rw [if_neg hgt]; exact h)
      · exact Or.inr ⟨p, e, List.mem_cons_of_mem _ hmem, by rw [if_neg hgt]; exact he⟩

/-- C9 as amended: every successfully returned lookup result is the
distance-merge of some stored entry with the distance parsed from the
input (this covers both the exact and the fuzzy branch, which apply the
identical merge); and the merge overrides parameters["distance"] with the
parsed distance exactly when a distance was parsed and the entry's
parameters contain a "direction" key — otherwise the entry is returned
with its stored parameters unchanged. -/
theorem lookup_distance_override_characterization (cfg : BankConfig)
    (bank : BankData) (utterance : String) :
    (∀ r conf needsConf, lookup cfg bank utterance = (some r, conf, needsConf) →
      ∃ p e, (p, e) ∈ bank.phrases ∧
        r = mergeDistance e (extractDistance utterance).2) ∧
    (∀ (e : PhraseEntry) (d : ℚ), (lookupA e.parameters "direction").isSome →
      mergeDistance e (some d) =
        { e with parameters := setA e.parameters "distance" (.pnum d) }) ∧
    (∀ (e : PhraseEntry) (d : ℚ), lookupA e.parameters "direction" = none →
      mergeDistance e (some d) = e) ∧
    (∀ e : PhraseEntry, mergeDistance e none = e) := by
  refine ⟨?_, ?_, ?_, fun e => rfl⟩
  · intro r conf needsConf h
    simp only [lookup] at h
    cases hlk : lookupA bank.phrases (normalize (extractDistance utterance).1) with
    | some data =>
      rw [hlk] at h
      have h1 : some (mergeDistance data (extractDistance utterance).2) = some r :=
        congrArg Prod.fst h
      exact ⟨normalize (extractDistance utterance).1, data,
        lookupA_mem _ _ _ hlk, (Option.some.inj h1).symm⟩
    | none =>
      rw [hlk] at h
      cases henf : cfg.enableFuzzy with
      | false =>
        rw [henf] at h
        simp at h
      | true =>
        rw [henf] at h
        simp only [if_true] at h
        split_ifs at h with h1 h2
        · have hm : (bank.phrases.foldl
              (fun (acc : ℚ × Option PhraseEntry) kv =>
                if similarity (normalize (extractDistance utterance).1) kv.1 > acc.1
                then (similarity (normalize (extractDistance utterance).1) kv.1,
                  some kv.2) else acc) (0, none)).2.map
              (fun d => mergeDistance d (extractDistance utterance).2) = some r :=
            congrArg Prod.fst h
          rcases lookup_best_mem (normalize (extractDistance utterance).1)
            bank.phrases (0, none) with hb | ⟨p, e, hmem, he⟩
          · rw [hb] at hm
            simp at hm
          · rw [he] at hm
            exact ⟨p, e, hmem, (Option.some.inj hm).symm⟩
        · have hm : (bank.phrases.foldl
              (fun (acc : ℚ × Option PhraseEntry) kv =>
                if similarity (normalize (extractDistance utterance).1) kv.1 > acc.1
                then (similarity (normalize (extractDistance utterance).1) kv.1,
                  some kv.2) else acc) (0, none)).2.map
              (fun d => mergeDistance d (extractDistance utterance).2) = some r :=
            congrArg Prod.fst h
          rcases lookup_best_mem (normalize (extractDistance utterance).1)
            bank.phrases (0, none) with hb | ⟨p, e, hmem, he⟩
          · rw [hb] at hm
            simp at hm
          · rw [he] at hm
            exact ⟨p, e, hmem, (Option.some.inj hm).symm⟩
        · simp at h
  · intro e d hdir
    simp [mergeDistance, hdir]
  · intro e d hdir
    simp [mergeDistance, hdir]

/-- Witness for the amended C9: the exact hit on "go back" (no digits, no
merge) comes from the stored entry; a direction-carrying entry has its
distance overridden by the merge; a direction-free entry is unchanged. -/
theorem lookup_distance_override_characterization_witness :
    (∃ p e, (p, e) ∈ bankGB.phrases ∧
      entryGB = mergeDistance e (extractDistance "go back").2) ∧
    mergeDistance entryMR (some 7) =
      { entryMR with
        parameters := setA entryMR.parameters "distance" (PyVal.pnum 7) } ∧
    mergeDistance entryGB (some 7) = entryGB := by
  refine ⟨?_, ?_, ?_⟩
  · exact (lookup_distance_override_characterization cfgMR bankGB "go back").1
      entryGB 1 false rfl
  · exact (lookup_distance_override_characterization cfgMR bankGB "go back").2.1
      entryMR 7 rfl
  · exact (lookup_distance_override_characterization cfgMR bankGB "go back").2.2.1
      entryGB 7 rfl

/-! ## NL sequence interpreter — SequenceInterpreter.interpret
(sequence_interpreter.py, lines 447-643).

The three model calls are embedded as an oracle of outcomes, each being
either a raised exception (message string) or a returned text with the
result of _parse_json_response on it.  The dynamic typing of the Python
code working over parsed JSON is embedded by giving every Python operation
its exact semantics on each PyVal constructor, in an Except monad whose
error value is an uncaught Python exception; try/except blocks become
catches on that monad.  The creative-command flag (_is_creative, a fixed
set of keyword regexes over the command) is quantified over instead of
computed, which covers both of its values. -/

/-- An uncaught Python exception. -/
inductive PyErr where
  | attributeError : PyErr
  | typeError : PyErr
  | keyError : PyErr
  /-- An exception raised by the Anthropic client call, carrying str(e). -/
  | apiError (msg : String) : PyErr
deriving DecidableEq, Repr

/-- str(e) for a caught exception, as interpolated into issue strings. -/
def pyErrStr : PyErr → String
  | .attributeError => "AttributeError"
  | .typeError => "TypeError"
  | .keyError => "KeyError"
  | .apiError msg => msg

/-- The observable outcome of one model call: an exception from
messages.create / the response accessors, or the raw response text
together with what _parse_json_response makes of it. -/
inductive LLMOutcome where
  | err (msg : String) : LLMOutcome
  | resp (raw : String) (parsed : Option PyVal) : LLMOutcome

/-- The outcomes of the up to three model calls of one interpret run. -/
structure Oracle where
  pass1 : LLMOutcome
  pass2 : LLMOutcome
  pass3 : LLMOutcome

/-- A Python dict with string keys (a parsed JSON object / the result
dict); keys are unique as json.loads keeps one binding per key. -/
abbrev RDict := List (String × PyVal)

/-- Python truthiness of a value. -/
def pyTruthy : PyVal → Bool
  | .pnull => false
  | .pbool b => b
  | .pnum q => decide (q ≠ 0)
  | .pstr s => decide (s ≠ "")
  | .plist xs => !xs.isEmpty
  | .pdict fs => !fs.isEmpty

/-- Python iteration (the list() constructor, for-loops, comprehensions):
lists yield elements, strings yield one-character strings, dicts yield
their keys; other values raise TypeError. -/
def pyIter : PyVal → Except PyErr (List PyVal)
  | .plist xs => .ok xs
  | .pstr s => .ok (s.data.map fun c => .pstr ⟨[c]⟩)
  | .pdict fs => .ok (fs.map fun kv => .pstr kv.1)
  | _ => .error .typeError

/-- Python v.get(k, default): AttributeError unless v is a dict. -/
def pyGetDefault (v : PyVal) (k : String) (default : PyVal) :
    Except PyErr PyVal :=
  match v with
  | .pdict fs => .ok ((lookupA fs k).getD default)
  | _ => .error .attributeError

/-- Python v[k] for a string key: KeyError when absent, TypeError when v
is not a dict. -/
def pyIndexKey (v : PyVal) (k : String) : Except PyErr PyVal :=
  match v with
  | .pdict fs =>
    match lookupA fs k with
    | some x => .ok x
    | none => .error .keyError
  | _ => .error .typeError

/-- Python membership of a string in a value: key test for dicts, element
equality for lists, substring test for strings; TypeError otherwise. -/
def pyInStr (k : String) (v : PyVal) : Except PyErr Bool :=
  match v with
  | .pdict fs => .ok (lookupA fs k).isSome
  | .plist xs => .ok (xs.any fun x => match x with
      | .pstr s => decide (s = k)
      | _ => false)
  | .pstr s => .ok (containsL s.data k.data)
  | _ => .error .typeError

/-- Python membership of a value in a set of strings (the pre-check's
valid-name sets): TypeError for unhashable values. -/
def pyInStrSet (v : PyVal) (set : List String) : Except PyErr Bool :=
  match v with
  | .pstr s => .ok (set.contains s)
  | .pnull | .pbool _ | .pnum _ => .ok false
  | .plist _ | .pdict _ => .error .typeError

/-- Python v >= q for a float threshold q: TypeError unless v is a number
(bools count as 0/1). -/
def pyGeFloat (v : PyVal) (q : ℚ) : Except PyErr Bool :=
  match v with
  | .pnum x => .ok (decide (x ≥ q))
  | .pbool b => .ok (decide ((if b then (1 : ℚ) else 0) ≥ q))
  | _ => .error .typeError

/-- Python len(v): TypeError for values without a length. -/
def pyLen : PyVal → Except PyErr Nat
  | .pstr s => .ok s.length
  | .plist xs => .ok xs.length
  | .pdict fs => .ok fs.length
  | _ => .error .typeError

/-! Structural depth of a value, a fuel bound for the equality scan. -/

mutual

def pyDepth : PyVal → Nat
  | .plist xs => pyDepthList xs + 1
  | .pdict fs => pyDepthFields fs + 1
  | _ => 1

def pyDepthList : List PyVal → Nat
  | [] => 0
  | x :: xs => max (pyDepth x) (pyDepthList xs)

def pyDepthFields : List (String × PyVal) → Nat
  | [] => 0
  | kv :: rest => max (pyDepth kv.2) (pyDepthFields rest)

end

/-- Python == on parsed JSON values, with fuel exceeding the structural
depth of the left operand: bools compare as the numbers 0/1, lists
elementwise, dicts by key sets and values regardless of order. -/
def pyEqFuel : Nat → PyVal → PyVal → Bool
  | 0, _, _ => false
  | fuel + 1, a, b =>
    match a, b with
    | .pnull, .pnull => true
    | .pbool x, .pbool y => x == y
    | .pbool x, .pnum q => decide ((if x then (1 : ℚ) else 0) = q)
    | .pnum q, .pbool y => decide (q = (if y then (1 : ℚ) else 0))
    | .pnum x, .pnum y => x == y
    | .pstr x, .pstr y => x == y
    | .plist xs, .plist ys =>
        xs.length == ys.length &&
        (xs.zip ys).all fun p => pyEqFuel fuel p.1 p.2
    | .pdict xs, .pdict ys =>
        xs.length == ys.length &&
        xs.all fun kv =>
          match lookupA ys kv.1 with
          | some v => pyEqFuel fuel kv.2 v
          | none => false
    | _, _ => false

/-- Python == on parsed JSON values. -/
def pyEq (a b : PyVal) : Bool :=
  pyEqFuel (pyDepth a) a b

/-- Python dict.setdefault(k, v) on the result dict. -/
def dictSetdefault (m : RDict) (k : String) (v : PyVal) : RDict :=
  if (lookupA m k).isSome then m else m ++ [(k, v)]

/-- result[k] on the result dict (keys inserted by setdefault). -/
def dIndex (r : RDict) (k : String) : Except PyErr PyVal :=
  match lookupA r k with
  | some v => .ok v
  | none => .error .keyError

/-- Python s.split(sep) for a nonempty separator: the chunk before the
first occurrence, then recursively the rest; the input length bounds the
recursion since every separator occurrence consumes characters. -/
def splitOnce (sep : List Char) : List Char → Option (List Char × List Char)
  | [] => none
  | c :: cs =>
    if strStartsWithL (c :: cs) sep then some ([], (c :: cs).drop sep.length)
    else (splitOnce sep cs).map fun pr => (c :: pr.1, pr.2)

def pySplitFuel (sep : List Char) : Nat → List Char → List (List Char)
  | 0, l => [l]
  | fuel + 1, l =>
    match splitOnce sep l with
    | some (pre, rest) => pre :: pySplitFuel sep fuel rest
    | none => [l]

def pySplit (s sep : String) : List String :=
  (pySplitFuel sep.data (s.data.length + 1) s.data).map fun l => ⟨l⟩

/-- InstructionCompiler.get_instruction_list_for_prompt: all primitive
then composite names joined with a comma-space. -/
def getInstructionListForPrompt (s : InstructionSet) : String :=
  String.intercalate ", "
    ((getPrimitives s).map Prod.fst ++ (getComposites s).map Prod.fst)

/-- The valid-instruction set of the Pass-2 pre-check:
get_instruction_list_for_prompt().split(", "). -/
def validInstructions (s : InstructionSet) : List String :=
  pySplit (getInstructionListForPrompt s) ", "

/-- The parts of the scene context the interpreter consults: the item
names and the recipes section. -/
structure InterpScene where
  items : List String
  recipes : List (String × PyVal)

/-- The Pass-1 exception handler's user_feedback string, chosen by
substring tests on the exception text (the rate/529/overloaded test, then
the timeout test, then the generic formatting). -/
def classifyPass1Err (e : String) : String :=
  let el := pyLowerL e.data
  if containsL el ("rate".data) || containsL e.data ("529".data) ||
      containsL el ("overloaded".data) then
    "API rate limit or overloaded — try again in a moment"
  else if containsL el ("timeout".data) then
    "API call timed out — check connection or try again"
  else
    "API error: " ++ e

/-- The structured zero-confidence result returned when the Pass-1 model
call raises, in the key order of the dict literal (lines 486-493). -/
def errResult (e : String) (creative : Bool) : RDict :=
  let fb := classifyPass1Err e
  [("interpretation", .pstr fb),
   ("sequence", .plist []), ("pass1_sequence", .plist []),
   ("composite_name", .pnull), ("confidence", .pnum 0),
   ("validated", .pbool false), ("validation_issues", .plist []),
   ("user_feedback", .pstr fb), ("is_creative", .pbool creative),
   ("creative_reasoning", .pnull), ("raw_response", .pstr e)]

/-- The structured zero-confidence result returned when Pass 1 yields
unparseable text (lines 499-507): the truncated raw text lands in
interpretation and raw_response, and user_feedback is None. -/
def parseFailResult (raw : String) (creative : Bool) : RDict :=
  [("interpretation", .pstr ⟨raw.data.take 300⟩),
   ("sequence", .plist []), ("pass1_sequence", .plist []),
   ("composite_name", .pnull), ("confidence", .pnum 0),
   ("validated", .pbool false),
   ("validation_issues", .plist [.pstr "Pass 1 returned non-JSON response"]),
   ("user_feedback", .pnull), ("is_creative", .pbool creative),
   ("creative_reasoning", .pnull), ("raw_response", .pstr raw)]

/-- The setdefault chain and is_creative assignment of lines 510-518. -/
def applyDefaults (fields : RDict) (creative : Bool) : RDict :=
  let r := dictSetdefault fields "interpretation" (.pstr "")
  let r := dictSetdefault r "sequence" (.plist [])
  let r := dictSetdefault r "composite_name" .pnull
  let r := dictSetdefault r "confidence" (.pnum (1/2))
  let r := dictSetdefault r "validated" (.pbool false)
  let r := dictSetdefault r "validation_issues" (.plist [])
  let r := dictSetdefault r "user_feedback" .pnull
  let r := dictSetdefault r "creative_reasoning" .pnull
  setA r "is_creative" (.pbool creative)

/-- Lines 509-523: defaults, the pass1_sequence snapshot via list(), and
the composite_name reset for creative commands. -/
def stageDefaults (creative : Bool) (fields : RDict) : Except PyErr RDict := do
  let r := applyDefaults fields creative
  let seqv ← dIndex r "sequence"
  let p1 ← pyIter seqv
  let r := setA r "pass1_sequence" (.plist p1)
  pure (if creative then setA r "composite_name" .pnull else r)

/-- One step of the _python_issues scan (lines 528-540). -/
def pythonIssuesStep (vi vitems : List String) (step : PyVal) :
    Except PyErr (List String) := do
  let inst ← pyGetDefault step "instruction" (.pstr "")
  let i1 ←
    if pyTruthy inst then do
      let mem ← pyInStrSet inst vi
      pure (if mem then ([] : List String)
        else ["unknown instruction: " ++ pyStr inst])
    else pure []
  let i2 ←
    if pyEq inst (.pstr "add_layer") then do
      let params ← pyGetDefault step "params" (.pdict [])
      let item ← pyGetDefault params "item" (.pstr "")
      if pyTruthy item then do
        let mem ← pyInStrSet item vitems
        pure (if mem then ([] : List String) else ["unknown item: " ++ pyStr item])
      else pure []
    else pure []
  pure (i1 ++ i2)

def pythonIssuesList (vi vitems : List String) :
    List PyVal → Except PyErr (List String)
  | [] => .ok []
  | step :: rest => do
    let i ← pythonIssuesStep vi vitems step
    let is2 ← pythonIssuesList vi vitems rest
    pure (i ++ is2)

/-- SequenceInterpreter.interpret._python_issues. -/
def pythonIssues (vi vitems : List String) (seq : PyVal) :
    Except PyErr (List String) := do
  let steps ← pyIter seq
  pythonIssuesList vi vitems steps

/-- The add_layer item collection of _matches_known_recipe. -/
def collectAddLayerItems : List PyVal → Except PyErr (List PyVal)
  | [] => .ok []
  | s :: rest => do
    let inst ← pyGetDefault s "instruction" .pnull
    if pyEq inst (.pstr "add_layer") then do
      let params ← pyIndexKey s "params"
      let item ← pyGetDefault params "item" .pnull
      let rest2 ← collectAddLayerItems rest
      pure (item :: rest2)
    else
      collectAddLayerItems rest

/-- SequenceInterpreter.interpret._matches_known_recipe (lines 542-549). -/
def matchesKnownRecipe (recipes : List (String × PyVal)) (seq : PyVal) :
    Except PyErr Bool := do
  let steps ← pyIter seq
  let p1Items ← collectAddLayerItems steps
  pure (recipes.any fun kv =>
    match kv.2 with
    | .pdict rd => pyEq (.plist p1Items) ((lookupA rd "layers").getD (.plist []))
    | _ => false)

/-- The Pass-2 try body (lines 567-591): the validator outcome, the
val_result truthiness and "sequence"-membership test, the issues read and
the len() in the logging line, then the sequence/validated/issues
assignments; an unparseable or sequence-less response keeps the original
sequence and records the unparseable issue. -/
def pass2Body (outcome : LLMOutcome) (r : RDict) : Except PyErr RDict :=
  match outcome with
  | .err e => .error (.apiError e)
  | .resp _ parsed =>
    match parsed with
    | none =>
      .ok (setA (setA r "validated" (.pbool false)) "validation_issues"
        (.plist [.pstr "Validator response unparseable"]))
    | some v =>
      if pyTruthy v then do
        let hasSeq ← pyInStr "sequence" v
        if hasSeq then do
          let issues ← pyGetDefault v "issues" (.plist [])
          let _ ← (if pyTruthy issues then do
              let _ ← pyLen issues
              pure ()
            else pure ())
          let seqv ← pyIndexKey v "sequence"
          let valid ← pyGetDefault v "valid" (.pbool true)
          pure (setA (setA (setA r "sequence" seqv) "validated" valid)
            "validation_issues" issues)
        else
          pure (setA (setA r "validated" (.pbool false)) "validation_issues"
            (.plist [.pstr "Validator response unparseable"]))
      else
        pure (setA (setA r "validated" (.pbool false)) "validation_issues"
          (.plist [.pstr "Validator response unparseable"]))

/-- Pass 2 with its except handler (lines 593-596): a raised exception
becomes validated=false and a "Validation error: ..." issue, with the
sequence untouched. -/
def applyPass2 (outcome : LLMOutcome) (r : RDict) : RDict :=
  match pass2Body outcome r with
  | .ok r2 => r2
  | .error e =>
    setA (setA r "validated" (.pbool false)) "validation_issues"
      (.plist [.pstr ("Validation error: " ++ pyErrStr e)])

/-- The _skip_pass2 decision (lines 551-561), evaluated lazily in the
Python or-chain: a structural problem found by the pre-check forces
validation; otherwise creative commands, high Pass-1 confidence, an exact
recipe match, or an empty sequence skip it. -/
def skipDecision (recipes : List (String × PyVal)) (r : RDict)
    (creative needsPass2 : Bool) (seqv : PyVal) : Except PyErr Bool :=
  if needsPass2 then pure false
  else if creative then pure true
  else do
    let conf ← dIndex r "confidence"
    let hc ← pyGeFloat conf (88 / 100)
    if hc then pure true
    else do
      let mr ← matchesKnownRecipe recipes seqv
      if mr then pure true else pure (!pyTruthy seqv)

/-- Lines 525-599: the Python pre-check, the skip decision, and Pass 2 or
the else branch marking the result validated with no issues. -/
def stagePass2 (vi vitems : List String) (recipes : List (String × PyVal))
    (creative : Bool) (outcome : LLMOutcome) (r : RDict) :
    Except PyErr RDict := do
  let seqv ← dIndex r "sequence"
  let pyIssues ← pythonIssues vi vitems seqv
  let skip ← skipDecision recipes r creative (!pyIssues.isEmpty) seqv
  let r := if skip then
      setA (setA r "validated" (.pbool true)) "validation_issues" (.plist [])
    else r
  if pyTruthy seqv && !skip then
    pure (applyPass2 outcome r)
  else
    pure (setA (setA r "validated" (.pbool true)) "validation_issues" (.plist []))

/-- The issue filter of Pass 3 (lines 605-606): keep string issues whose
lowercasing contains neither "unparseable" nor "error"; a non-string issue
raises AttributeError on .lower(), uncaught. -/
def filterRealIssues : List PyVal → Except PyErr (List String)
  | [] => .ok []
  | i :: rest =>
    match i with
    | .pstr s => do
      let rest2 ← filterRealIssues rest
      let sl := pyLowerL s.data
      if !containsL sl ("unparseable".data) && !containsL sl ("error".data) then
        pure (s :: rest2)
      else
        pure rest2
    | _ => .error .attributeError

/-- The Pass-3 try body (lines 609-637): on a parseable response carrying
a sequence, the result's sequence/interpretation/confidence/user_feedback/
creative_reasoning are replaced (defaulting to the previous values), the
issues are remarked as fixed, validated is set, and a creative command
clears composite_name; otherwise the Pass-2 result is kept. -/
def pass3Body (outcome : LLMOutcome) (r : RDict) (realIssues : List String)
    (creative : Bool) : Except PyErr RDict :=
  match outcome with
  | .err e => .error (.apiError e)
  | .resp _ parsed =>
    match parsed with
    | none => .ok r
    | some v =>
      if pyTruthy v then do
        let hasSeq ← pyInStr "sequence" v
        if hasSeq then do
          let seqv ← pyGetDefault v "sequence" (← dIndex r "sequence")
          let interp ← pyGetDefault v "interpretation" (← dIndex r "interpretation")
          let conf ← pyGetDefault v "confidence" (← dIndex r "confidence")
          let ufb ← pyGetDefault v "user_feedback" (← dIndex r "user_feedback")
          let cr ← pyGetDefault v "creative_reasoning"
            (← dIndex r "creative_reasoning")
          let r := setA r "sequence" seqv
          let r := setA r "interpretation" interp
          let r := setA r "confidence" conf
          let r := setA r "user_feedback" ufb
          let r := setA r "creative_reasoning" cr
          let r := setA r "validation_issues"
            (.plist (realIssues.map fun i => .pstr ("[P3 fixed] " ++ i)))
          let r := setA r "validated" (.pbool true)
          pure (if creative then setA r "composite_name" .pnull else r)
        else
          pure r
      else
        pure r

/-- Pass 3 with its except handler (lines 639-641): any exception keeps
the Pass-2 result. -/
def applyPass3 (outcome : LLMOutcome) (r : RDict) (realIssues : List String)
    (creative : Bool) : RDict :=
  match pass3Body outcome r realIssues creative with
  | .ok r2 => r2
  | .error _ => r

/-- Lines 601-643: Pass 3 runs only when validation issues survived, no
raw_response was recorded, and some issue is neither an unparseable nor an
error marker. -/
def stagePass3 (creative : Bool) (outcome : LLMOutcome) (r : RDict) :
    Except PyErr RDict := do
  let issuesAfter := (lookupA r "validation_issues").getD (.plist [])
  let rawResp := (lookupA r "raw_response").getD .pnull
  if pyTruthy issuesAfter && !pyTruthy rawResp then do
    let items ← pyIter issuesAfter
    let realIssues ← filterRealIssues items
    if realIssues.isEmpty then pure r
    else pure (applyPass3 outcome r realIssues creative)
  else
    pure r

/-- The main path of interpret on a parsed Pass-1 object: defaults and
snapshot, Pass 2, Pass 3, then the structured result. -/
def interpretMain (vi vitems : List String) (recipes : List (String × PyVal))
    (creative : Bool) (p2 p3 : LLMOutcome) (fields : RDict) :
    Except PyErr (Option RDict) := do
  let r ← stageDefaults creative fields
  let r ← stagePass2 vi vitems recipes creative p2 r
  let r ← stagePass3 creative p3 r
  return some r

/-- SequenceInterpreter.interpret.  Returns ok none for empty/trivial
input; otherwise the structured result dict, or an uncaught Python
exception when the dynamic operations on the parsed model output raise
outside a try block. -/
def interpret (iset : InstructionSet) (scene : InterpScene) (creative : Bool)
    (o : Oracle) (voiceCommand : String) : Except PyErr (Option RDict) := do
  if voiceCommand = "" ∨ (pyStripL voiceCommand.data).length < 2 then
    return none
  match o.pass1 with
  | .err e => return some (errResult e creative)
  | .resp raw parsed =>
    match parsed with
    | none => return some (parseFailResult raw creative)
    | some v =>
      match v with
      | .pdict fields =>
        interpretMain (validInstructions iset) scene.items scene.recipes
          creative o.pass2 o.pass3 fields
      | _ => .error .attributeError

/-! Well-formedness of parsed model responses: the shapes under which the
dynamic operations of the uncovered region (between the Pass-1 parse and
the Pass-2 try block, and the Pass-3 issue filter) cannot raise. -/

/-- A well-formed proposed step: an object whose instruction (when
present) is a string and which carries an object params whose item (when
present) is a string. -/
def WFStep (s : PyVal) : Prop :=
  ∃ sf pf, s = .pdict sf ∧ lookupA sf "params" = some (.pdict pf) ∧
    (∀ iv, lookupA sf "instruction" = some iv → ∃ t, iv = .pstr t) ∧
    (∀ iv, lookupA pf "item" = some iv → ∃ t, iv = .pstr t)

/-- A well-formed sequence value: a list of well-formed steps. -/
def WFSeqVal (v : PyVal) : Prop :=
  ∃ xs, v = .plist xs ∧ ∀ s ∈ xs, WFStep s

/-- Well-formedness of the Pass-1 object: its sequence (when present) is
a list of well-formed steps and its confidence (when present) a number. -/
def WFPass1 (fields : RDict) : Prop :=
  (∀ v, lookupA fields "sequence" = some v → WFSeqVal v) ∧
  (∀ v, lookupA fields "confidence" = some v → ∃ q, v = .pnum q)

/-- Well-formedness of the Pass-2 outcome: when the validator's response
parses to an object, its issues entry (when present) is a list of
strings.  All other malformed validator responses are absorbed by the
Pass-2 try/except. -/
def WFPass2 (outcome : LLMOutcome) : Prop :=
  ∀ raw fs iv, outcome = .resp raw (some (.pdict fs)) →
    lookupA fs "issues" = some iv →
    ∃ xs, iv = .plist xs ∧ ∀ i ∈ xs, ∃ t, i = .pstr t

/-- The structured-result fields named by the contract. -/
def FieldKeys : List String :=
  ["interpretation", "sequence", "confidence", "validated",
   "validation_issues", "user_feedback"]

/-- The result dict carries every contract field. -/
def FieldsPresent (r : RDict) : Prop :=
  ∀ k ∈ FieldKeys, (lookupA r k).isSome

/-- The result's validation_issues value is a list of strings. -/
def IssuesStrings (r : RDict) : Prop :=
  ∀ iv, lookupA r "validation_issues" = some iv →
    ∃ xs, iv = .plist xs ∧ ∀ i ∈ xs, ∃ t, i = .pstr t

theorem lookupA_setA_ne {α : Type} (m : List (String × α)) (k v k2)
    (h : k ≠ k2) : lookupA (setA m k v) k2 = lookupA m k2 := by
  induction m with
  | nil => simp [setA, lookupA, h]
  | cons hd tl ih =>
    obtain ⟨k1, v1⟩ := hd
    by_cases h1 : k1 = k
    · subst h1
      simp [setA, lookupA, h]
    · simp [setA, lookupA, h1, ih]

theorem lookupA_append_single_ne {α : Type} (m : List (String × α)) (k : String)
    (v : α) (k2 : String) (h : k2 ≠ k) :
    lookupA (m ++ [(k, v)]) k2 = lookupA m k2 := by
  induction m with
  | nil => simp [lookupA, Ne.symm h]
  | cons hd tl ih =>
    obtain ⟨k1, v1⟩ := hd
    by_cases h1 : k1 = k2
    · simp [lookupA, h1]
    · simp [lookupA, h1, ih]

theorem lookupA_setdefault_ne (m : RDict) (k : String) (v : PyVal)
    (k2 : String) (h : k2 ≠ k) :
    lookupA (dictSetdefault m k v) k2 = lookupA m k2 := by
  unfold dictSetdefault
  split_ifs with hs
  · rfl
  · exact lookupA_append_single_ne m k v k2 h

theorem lookupA_setdefault_eq (m : RDict) (k : String) (v : PyVal) :
    lookupA (dictSetdefault m k v) k = some ((lookupA m k).getD v) := by
  unfold dictSetdefault
  split_ifs with hs
  · obtain ⟨x, hx⟩ := Option.isSome_iff_exists.mp hs
    simp [hx]
  · have hn : lookupA m k = none := by
      cases h : lookupA m k
      · rfl
      · rw [h] at hs; simp at hs
    rw [hn]
    simpa using lookupA_append_right m k v hn

theorem FieldsPresent_setA (r : RDict) (k : String) (v : PyVal)
    (h : FieldsPresent r) : FieldsPresent (setA r k v) := by
  intro k2 hk2
  by_cases he : k = k2
  · subst he
    simp [lookupA_setA_self]
  · rw [lookupA_setA_ne r k v k2 he]
    exact h k2 hk2

theorem IssuesStrings_setA_ne (r : RDict) (k : String) (v : PyVal)
    (hk : k ≠ "validation_issues") (h : IssuesStrings r) :
    IssuesStrings (setA r k v) := by
  intro iv hiv
  rw [lookupA_setA_ne r k v _ hk] at hiv
  exact h iv hiv

theorem IssuesStrings_setA_strings (r : RDict) (xs : List PyVal)
    (hxs : ∀ i ∈ xs, ∃ t, i = .pstr t) :
    IssuesStrings (setA r "validation_issues" (.plist xs)) := by
  intro iv hiv
  rw [lookupA_setA_self] at hiv
  exact ⟨xs, (Option.some.inj hiv).symm, hxs⟩

theorem applyDefaults_present (fields : RDict) (creative : Bool) :
    FieldsPresent (applyDefaults fields creative) := by
  intro k hk
  simp only [FieldKeys, List.mem_cons, List.not_mem_nil, or_false] at hk
  rcases hk with rfl | rfl | rfl | rfl | rfl | rfl <;>
    simp [applyDefaults, lookupA_setA_ne, lookupA_setdefault_ne,
      lookupA_setdefault_eq]

theorem applyDefaults_sequence (fields : RDict) (creative : Bool) :
    lookupA (applyDefaults fields creative) "sequence" =
      some ((lookupA fields "sequence").getD (.plist [])) := by
  simp [applyDefaults, lookupA_setA_ne, lookupA_setdefault_ne,
    lookupA_setdefault_eq]

theorem applyDefaults_confidence (fields : RDict) (creative : Bool) :
    lookupA (applyDefaults fields creative) "confidence" =
      some ((lookupA fields "confidence").getD (.pnum (1/2))) := by
  simp [applyDefaults, lookupA_setA_ne, lookupA_setdefault_ne,
    lookupA_setdefault_eq]

theorem stageDefaults_ok (creative : Bool) (fields : RDict)
    (h1 : WFPass1 fields) :
    ∃ r, stageDefaults creative fields = .ok r ∧ FieldsPresent r ∧
      (∀ v, lookupA r "sequence" = some v → WFSeqVal v) ∧
      (∀ v, lookupA r "confidence" = some v → ∃ q, v = .pnum q) := by
  obtain ⟨hseq, hconf⟩ := h1
  have hwf : WFSeqVal ((lookupA fields "sequence").getD (.plist [])) := by
    cases h : lookupA fields "sequence" with
    | none => exact ⟨[], rfl, by simp⟩
    | some v => simpa using hseq v h
  obtain ⟨xs, hxs, hsteps⟩ := hwf
  have hwfc : ∃ q, (lookupA fields "confidence").getD (.pnum (1/2)) = .pnum q := by
    cases h : lookupA fields "confidence" with
    | none => exact ⟨1/2, rfl⟩
    | some v => simpa using hconf v h
  refine ⟨(if creative then
      setA (setA (applyDefaults fields creative) "pass1_sequence" (.plist xs))
        "composite_name" .pnull
    else setA (applyDefaults fields creative) "pass1_sequence" (.plist xs)),
    ?_, ?_, ?_, ?_⟩
  · rw [show stageDefaults creative fields =
        (do
          let seqv ← dIndex (applyDefaults fields creative) "sequence"
          let p1 ← pyIter seqv
          pure (if creative = true then
              setA (setA (applyDefaults fields creative) "pass1_sequence"
                (.plist p1)) "composite_name" .pnull
            else
              setA (applyDefaults fields creative) "pass1_sequence"
                (.plist p1))) from rfl]
    rw [show dIndex (applyDefaults fields creative) "sequence" =
      .ok ((lookupA fields "sequence").getD (.plist [])) from by
        simp [dIndex, applyDefaults_sequence]]
    rw [hxs]
    rfl
  · cases creative with
    | false =>
      simpa using FieldsPresent_setA _ _ _ (applyDefaults_present fields false)
    | true =>
      simpa using FieldsPresent_setA _ _ _
        (FieldsPresent_setA _ _ _ (applyDefaults_present fields true))
  · intro v hv
    have : lookupA (applyDefaults fields creative) "sequence" = some v := by
      cases creative with
      | false =>
        rw [if_neg (by simp)] at hv
        rw [lookupA_setA_ne _ _ _ _ (by simp)] at hv
        exact hv
      | true =>
        rw [if_pos rfl] at hv
        rw [lookupA_setA_ne _ _ _ _ (by simp),
          lookupA_setA_ne _ _ _ _ (by simp)] at hv
        exact hv
    rw [applyDefaults_sequence, hxs] at this
    exact ⟨xs, (Option.some.inj this).symm, hsteps⟩
  · intro v hv
    have : lookupA (applyDefaults fields creative) "confidence" = some v := by
      cases creative with
      | false =>
        rw [if_neg (by simp)] at hv
        rw [lookupA_setA_ne _ _ _ _ (by simp)] at hv
        exact hv
      | true =>
        rw [if_pos rfl] at hv
        rw [lookupA_setA_ne _ _ _ _ (by simp),
          lookupA_setA_ne _ _ _ _ (by simp)] at hv
        exact hv
    rw [applyDefaults_confidence] at this
    obtain ⟨q, hq⟩ := hwfc
    exact ⟨q, by rw [← Option.some.inj this, hq]⟩

theorem ok_bind {ε α β : Type} (a : α) (f : α → Except ε β) :
    (do let x ← Except.ok (ε := ε) a; f x) = f a := rfl

theorem pythonIssuesStep_ok (vi vitems : List String) (s : PyVal)
    (h : WFStep s) : ∃ is1, pythonIssuesStep vi vitems s = .ok is1 := by
  obtain ⟨sf, pf, rfl, hparams, hinst, hitem⟩ := h
  obtain ⟨t, ht⟩ : ∃ t, (lookupA sf "instruction").getD (.pstr "") = .pstr t := by
    cases hi : lookupA sf "instruction" with
    | none => exact ⟨"", rfl⟩
    | some iv =>
      obtain ⟨t, rfl⟩ := hinst iv hi
      exact ⟨t, rfl⟩
  obtain ⟨t2, ht2⟩ : ∃ t2, (lookupA pf "item").getD (.pstr "") = .pstr t2 := by
    cases hi : lookupA pf "item" with
    | none => exact ⟨"", rfl⟩
    | some iv =>
      obtain ⟨t2, rfl⟩ := hitem iv hi
      exact ⟨t2, rfl⟩
  simp only [pythonIssuesStep,
    show pyGetDefault (.pdict sf) "instruction" (.pstr "") =
      .ok (.pstr t) from by simp [pyGetDefault, ht],
    show pyGetDefault (.pdict sf) "params" (.pdict []) =
      .ok (.pdict pf) from by simp [pyGetDefault, hparams],
    show pyGetDefault (.pdict pf) "item" (.pstr "") =
      .ok (.pstr t2) from by simp [pyGetDefault, ht2],
    ok_bind, pyInStrSet]
  cases pyTruthy (.pstr t) <;> cases pyEq (.pstr t) (.pstr "add_layer") <;>
    cases pyTruthy (.pstr t2) <;> exact ⟨_, rfl⟩

theorem pythonIssuesList_ok (vi vitems : List String) (steps : List PyVal)
    (h : ∀ s ∈ steps, WFStep s) :
    ∃ is1, pythonIssuesList vi vitems steps = .ok is1 := by
  induction steps with
  | nil => exact ⟨[], rfl⟩
  | cons s rest ih =>
    obtain ⟨i1, hi1⟩ := pythonIssuesStep_ok vi vitems s (h s (List.mem_cons_self _ _))
    obtain ⟨i2, hi2⟩ := ih fun x hx => h x (List.mem_cons_of_mem _ hx)
    exact ⟨i1 ++ i2, by simp [pythonIssuesList, hi1, hi2, ok_bind]⟩

theorem collectAddLayerItems_ok (steps : List PyVal)
    (h : ∀ s ∈ steps, WFStep s) :
    ∃ items, collectAddLayerItems steps = .ok items := by
  induction steps with
  | nil => exact ⟨[], rfl⟩
  | cons s rest ih =>
    obtain ⟨items2, hi2⟩ := ih fun x hx => h x (List.mem_cons_of_mem _ hx)
    obtain ⟨sf, pf, rfl, hparams, -, -⟩ := h s (List.mem_cons_self _ _)
    simp only [collectAddLayerItems,
      show pyGetDefault (.pdict sf) "instruction" .pnull =
        .ok ((lookupA sf "instruction").getD .pnull) from rfl, ok_bind]
    by_cases hal : pyEq ((lookupA sf "instruction").getD .pnull)
        (.pstr "add_layer") = true
    · simp only [hal, if_true,
        show pyIndexKey (.pdict sf) "params" = .ok (.pdict pf) from by
          simp [pyIndexKey, hparams], ok_bind,
        show pyGetDefault (.pdict pf) "item" .pnull =
          .ok ((lookupA ((pf : List (String × PyVal))) "item").getD .pnull)
          from rfl, hi2]
      exact ⟨_, rfl⟩
    · simp only [hal, if_false]
      exact ⟨items2, hi2⟩

theorem matchesKnownRecipe_ok (recipes : List (String × PyVal))
    (xs : List PyVal) (h : ∀ s ∈ xs, WFStep s) :
    ∃ b, matchesKnownRecipe recipes (.plist xs) = .ok b := by
  obtain ⟨items, hitems⟩ := collectAddLayerItems_ok xs h
  simp only [matchesKnownRecipe,
    show pyIter (.plist xs) = .ok xs from rfl, ok_bind, hitems]
  exact ⟨_, rfl⟩

theorem error_bind {ε α β : Type} (e : ε) (f : α → Except ε β) :
    (do let x ← (Except.error e : Except ε α); f x) = .error e := rfl

theorem pure_eq_ok {ε α : Type} (a : α) : (pure a : Except ε α) = .ok a := rfl

theorem post2_shape2 (r : RDict) (hp : FieldsPresent r) (b : PyVal)
    (xs : List PyVal) (hxs : ∀ i ∈ xs, ∃ t, i = .pstr t) :
    FieldsPresent (setA (setA r "validated" b) "validation_issues" (.plist xs)) ∧
    IssuesStrings (setA (setA r "validated" b) "validation_issues" (.plist xs)) :=
  ⟨FieldsPresent_setA _ _ _ (FieldsPresent_setA _ _ _ hp),
   IssuesStrings_setA_strings _ _ hxs⟩

theorem post2_shape3 (r : RDict) (hp : FieldsPresent r) (sv b : PyVal)
    (xs : List PyVal) (hxs : ∀ i ∈ xs, ∃ t, i = .pstr t) :
    FieldsPresent (setA (setA (setA r "sequence" sv) "validated" b)
      "validation_issues" (.plist xs)) ∧
    IssuesStrings (setA (setA (setA r "sequence" sv) "validated" b)
      "validation_issues" (.plist xs)) :=
  ⟨FieldsPresent_setA _ _ _ (FieldsPresent_setA _ _ _ (FieldsPresent_setA _ _ _ hp)),
   IssuesStrings_setA_strings _ _ hxs⟩

theorem applyPass2_ok (outcome : LLMOutcome) (r : RDict)
    (hwf2 : WFPass2 outcome) (hp : FieldsPresent r) :
    FieldsPresent (applyPass2 outcome r) ∧ IssuesStrings (applyPass2 outcome r) := by
  have hcatch : ∀ e : PyErr,
      FieldsPresent (setA (setA r "validated" (.pbool false)) "validation_issues"
        (.plist [.pstr ("Validation error: " ++ pyErrStr e)])) ∧
      IssuesStrings (setA (setA r "validated" (.pbool false)) "validation_issues"
        (.plist [.pstr ("Validation error: " ++ pyErrStr e)])) :=
    fun e => post2_shape2 r hp _ _ (by
      intro i hi
      simp only [List.mem_singleton] at hi
      exact ⟨_, hi⟩)
  have hunp :
      FieldsPresent (setA (setA r "validated" (.pbool false)) "validation_issues"
        (.plist [.pstr "Validator response unparseable"])) ∧
      IssuesStrings (setA (setA r "validated" (.pbool false)) "validation_issues"
        (.plist [.pstr "Validator response unparseable"])) :=
    post2_shape2 r hp _ _ (by
      intro i hi
      simp only [List.mem_singleton] at hi
      exact ⟨_, hi⟩)
  cases outcome with
  | err e =>
    simpa only [applyPass2, pass2Body] using hcatch (.apiError e)
  | resp raw parsed =>
    cases parsed with
    | none => simpa only [applyPass2, pass2Body] using hunp
    | some v =>
      by_cases hv : pyTruthy v = true
      · match v, hv with
        | .pdict fs, hv =>
          obtain ⟨xs, hxs, hxsstr⟩ :
              ∃ xs, (lookupA fs "issues").getD (.plist []) = .plist xs ∧
                ∀ i ∈ xs, ∃ t, i = .pstr t := by
            cases hiss : lookupA fs "issues" with
            | none => exact ⟨[], rfl, by simp⟩
            | some iv =>
              obtain ⟨xs, hxs, hstr⟩ := hwf2 raw fs iv rfl hiss
              exact ⟨xs, by simp [hxs], hstr⟩
          by_cases hseqp : (lookupA fs "sequence").isSome = true
          · obtain ⟨s0, hs0⟩ := Option.isSome_iff_exists.mp hseqp
            have hbody : pass2Body (.resp raw (some (.pdict fs))) r =
                .ok (setA (setA (setA r "sequence" s0) "validated"
                  ((lookupA fs "valid").getD (.pbool true)))
                  "validation_issues" (.plist xs)) := by
              simp only [pass2Body, hv, if_true,
                show pyInStr "sequence" (.pdict fs) = .ok true from by
                  simp [pyInStr, hseqp], ok_bind,
                show pyGetDefault (.pdict fs) "issues" (.plist []) =
                  .ok (.plist xs) from by simp [pyGetDefault, hxs],
                show pyIndexKey (.pdict fs) "sequence" = .ok s0 from by
                  simp [pyIndexKey, hs0],
                show pyGetDefault (.pdict fs) "valid" (.pbool true) =
                  .ok ((lookupA fs "valid").getD (.pbool true)) from rfl]
              cases hT : pyTruthy (.plist xs) <;>
                simp [hT, pyLen, ok_bind, pure_eq_ok]
            simpa only [applyPass2, hbody] using
              post2_shape3 r hp s0 _ xs hxsstr
          · have hbody : pass2Body (.resp raw (some (.pdict fs))) r =
                .ok (setA (setA r "validated" (.pbool false)) "validation_issues"
                  (.plist [.pstr "Validator response unparseable"])) := by
              simp only [pass2Body, hv, if_true,
                show pyInStr "sequence" (.pdict fs) = .ok false from by
                  simp only [pyInStr]
                  rw [show (lookupA fs "sequence").isSome = false from by
                    simpa using hseqp], ok_bind]
              simp [pure_eq_ok]
            simpa only [applyPass2, hbody] using hunp
        | .plist elems, hv =>
          by_cases hmem : (elems.any fun x => match x with
              | .pstr s => decide (s = "sequence")
              | _ => false) = true
          · have hbody : pass2Body (.resp raw (some (.plist elems))) r =
                .error .attributeError := by
              simp [pass2Body, hv, pyInStr, hmem, ok_bind, error_bind, pyGetDefault]
            simpa only [applyPass2, hbody] using hcatch .attributeError
          · have hbody : pass2Body (.resp raw (some (.plist elems))) r =
                .ok (setA (setA r "validated" (.pbool false)) "validation_issues"
                  (.plist [.pstr "Validator response unparseable"])) := by
              simp only [pass2Body, hv, if_true,
                show pyInStr "sequence" (.plist elems) = .ok false from by
                  simp only [pyInStr]
                  rw [show (elems.any fun x => match x with
                    | .pstr s => decide (s = "sequence")
                    | _ => false) = false from by simpa using hmem], ok_bind]
              simp [pure_eq_ok]
            simpa only [applyPass2, hbody] using hunp
        | .pstr s, hv =>
          by_cases hmem : containsL s.data ("sequence".data) = true
          · have hbody : pass2Body (.resp raw (some (.pstr s))) r =
                .error .attributeError := by
              simp [pass2Body, hv, pyInStr, hmem, ok_bind, error_bind, pyGetDefault]
            simpa only [applyPass2, hbody] using hcatch .attributeError
          · have hbody : pass2Body (.resp raw (some (.pstr s))) r =
                .ok (setA (setA r "validated" (.pbool false)) "validation_issues"
                  (.plist [.pstr "Validator response unparseable"])) := by
              simp only [pass2Body, hv, if_true,
                show pyInStr "sequence" (.pstr s) = .ok false from by
                  simp only [pyInStr]
                  rw [show containsL s.data ("sequence".data) = false from by
                    simpa using hmem], ok_bind]
              simp [pure_eq_ok]
            simpa only [applyPass2, hbody] using hunp
        | .pnum q, hv =>
          have hbody : pass2Body (.resp raw (some (.pnum q))) r =
              .error .typeError := by
            simp [pass2Body, hv, pyInStr, error_bind, ok_bind]
          simpa only [applyPass2, hbody] using hcatch .typeError
        | .pbool b, hv =>
          have hbody : pass2Body (.resp raw (some (.pbool b))) r =
              .error .typeError := by
            simp [pass2Body, hv, pyInStr, error_bind, ok_bind]
          simpa only [applyPass2, hbody] using hcatch .typeError
      · have hbody : pass2Body (.resp raw (some v)) r =
            .ok (setA (setA r "validated" (.pbool false)) "validation_issues"
              (.plist [.pstr "Validator response unparseable"])) := by
          cases v <;> simp only [pass2Body] <;> first
            | rfl
            | (rw [if_neg hv]; rfl)
        simpa only [applyPass2, hbody] using hunp

theorem skipDecision_ok (recipes : List (String × PyVal)) (r : RDict)
    (creative needsPass2 : Bool) (xs : List PyVal) (q : ℚ)
    (hc0 : lookupA r "confidence" = some (.pnum q))
    (hsteps : ∀ s ∈ xs, WFStep s) :
    ∃ sb, skipDecision recipes r creative needsPass2 (.plist xs) = .ok sb := by
  obtain ⟨mr, hmr⟩ := matchesKnownRecipe_ok recipes xs hsteps
  unfold skipDecision
  cases needsPass2 with
  | true => exact ⟨false, rfl⟩
  | false =>
    cases creative with
    | true => exact ⟨true, rfl⟩
    | false =>
      simp only [Bool.false_eq_true, if_false,
        show dIndex r "confidence" = .ok (.pnum q) from by simp [dIndex, hc0],
        ok_bind,
        show pyGeFloat (.pnum q) (88 / 100) = .ok (decide (q ≥ 88 / 100)) from
          rfl, hmr]
      by_cases hq : q ≥ 88 / 100
      · exact ⟨true, by simp [hq, pure_eq_ok]⟩
      · cases mr with
        | true => exact ⟨true, by simp [hq, pure_eq_ok]⟩
        | false => exact ⟨!pyTruthy (.plist xs), by simp [hq, pure_eq_ok]⟩

theorem stagePass2_ok (vi vitems : List String) (recipes : List (String × PyVal))
    (creative : Bool) (outcome : LLMOutcome) (r : RDict)
    (hp : FieldsPresent r)
    (hseq : ∀ v, lookupA r "sequence" = some v → WFSeqVal v)
    (hconf : ∀ v, lookupA r "confidence" = some v → ∃ q, v = .pnum q)
    (hwf2 : WFPass2 outcome) :
    ∃ r2, stagePass2 vi vitems recipes creative outcome r = .ok r2 ∧
      FieldsPresent r2 ∧ IssuesStrings r2 := by
  have hsp : (lookupA r "sequence").isSome := hp "sequence" (by simp [FieldKeys])
  obtain ⟨s0, hs0⟩ := Option.isSome_iff_exists.mp hsp
  obtain ⟨xs, rfl, hsteps⟩ := hseq s0 hs0
  have hcp : (lookupA r "confidence").isSome := hp "confidence" (by simp [FieldKeys])
  obtain ⟨c0, hc0⟩ := Option.isSome_iff_exists.mp hcp
  obtain ⟨q, rfl⟩ := hconf c0 hc0
  obtain ⟨iss, hiss⟩ := pythonIssuesList_ok vi vitems xs hsteps
  have hpi : pythonIssues vi vitems (.plist xs) = .ok iss := by
    simp [pythonIssues, pyIter, ok_bind, hiss]
  obtain ⟨sb, hsb⟩ := skipDecision_ok recipes r creative (!iss.isEmpty) xs q
    hc0 hsteps
  simp only [stagePass2,
    show dIndex r "sequence" = .ok (.plist xs) from by simp [dIndex, hs0],
    ok_bind, hpi, hsb]
  set r1 := if sb then
      setA (setA r "validated" (.pbool true)) "validation_issues" (.plist [])
    else r with hr1
  have hp1 : FieldsPresent r1 := by
    rw [hr1]
    cases sb with
    | true =>
      simpa using FieldsPresent_setA _ _ _ (FieldsPresent_setA _ _ _ hp)
    | false => simpa using hp
  by_cases hrun : (pyTruthy (.plist xs) && !sb) = true
  · rw [if_pos hrun]
    obtain ⟨h1, h2⟩ := applyPass2_ok outcome r1 hwf2 hp1
    exact ⟨applyPass2 outcome r1, rfl, h1, h2⟩
  · rw [if_neg hrun]
    refine ⟨_, rfl, ?_, ?_⟩
    · exact FieldsPresent_setA _ _ _ (FieldsPresent_setA _ _ _ hp1)
    · exact IssuesStrings_setA_strings _ _ (by simp)

theorem pass3Body_present (outcome : LLMOutcome) (r : RDict)
    (ri : List String) (creative : Bool) (hp : FieldsPresent r) :
    ∀ r2, pass3Body outcome r ri creative = .ok r2 → FieldsPresent r2 := by
  intro r2 h
  cases outcome with
  | err e => simp [pass3Body] at h
  | resp raw parsed =>
    cases parsed with
    | none =>
      simp only [pass3Body, Except.ok.injEq] at h
      subst h
      exact hp
    | some v =>
      simp only [pass3Body] at h
      by_cases hv : pyTruthy v = true
      · rw [if_pos hv] at h
        cases hin : pyInStr "sequence" v with
        | error e => rw [hin, error_bind] at h; cases h
        | ok b =>
          rw [hin, ok_bind] at h
          cases b with
          | false =>
            simp only [Bool.false_eq_true, if_false, pure_eq_ok,
              Except.ok.injEq] at h
            subst h
            exact hp
          | true =>
            simp only [if_true] at h
            cases h1 : dIndex r "sequence" with
            | error e => rw [h1, error_bind] at h; cases h
            | ok d1 =>
              rw [h1, ok_bind] at h
              cases h2 : pyGetDefault v "sequence" d1 with
              | error e => rw [h2, error_bind] at h; cases h
              | ok w1 =>
                rw [h2, ok_bind] at h
                cases h3 : dIndex r "interpretation" with
                | error e => rw [h3, error_bind] at h; cases h
                | ok d2 =>
                  rw [h3, ok_bind] at h
                  cases h4 : pyGetDefault v "interpretation" d2 with
                  | error e => rw [h4, error_bind] at h; cases h
                  | ok w2 =>
                    rw [h4, ok_bind] at h
                    cases h5 : dIndex r "confidence" with
                    | error e => rw [h5, error_bind] at h; cases h
                    | ok d3 =>
                      rw [h5, ok_bind] at h
                      cases h6 : pyGetDefault v "confidence" d3 with
                      | error e => rw [h6, error_bind] at h; cases h
                      | ok w3 =>
                        rw [h6, ok_bind] at h
                        cases h7 : dIndex r "user_feedback" with
                        | error e => rw [h7, error_bind] at h; cases h
                        | ok d4 =>
                          rw [h7, ok_bind] at h
                          cases h8 : pyGetDefault v "user_feedback" d4 with
                          | error e => rw [h8, error_bind] at h; cases h
                          | ok w4 =>
                            rw [h8, ok_bind] at h
                            cases h9 : dIndex r "creative_reasoning" with
                            | error e => rw [h9, error_bind] at h; cases h
                            | ok d5 =>
                              rw [h9, ok_bind] at h
                              cases h10 : pyGetDefault v "creative_reasoning" d5 with
                              | error e => rw [h10, error_bind] at h; cases h
                              | ok w5 =>
                                rw [h10, ok_bind, pure_eq_ok,
                                  Except.ok.injEq] at h
                                subst h
                                have hbase := FieldsPresent_setA _ "validated"
                                  (.pbool true)
                                  (FieldsPresent_setA _ "validation_issues"
                                  (.plist (ri.map fun i =>
                                    .pstr ("[P3 fixed] " ++ i)))
                                  (FieldsPresent_setA _ "creative_reasoning" w5
                                  (FieldsPresent_setA _ "user_feedback" w4
                                  (FieldsPresent_setA _ "confidence" w3
                                  (FieldsPresent_setA _ "interpretation" w2
                                  (FieldsPresent_setA _ "sequence" w1 hp))))))
                                cases creative with
                                | false => simpa using hbase
                                | true =>
                                  simpa using FieldsPresent_setA _ _ _ hbase
      · rw [if_neg hv, pure_eq_ok, Except.ok.injEq] at h
        subst h
        exact hp

theorem applyPass3_present (outcome : LLMOutcome) (r : RDict)
    (ri : List String) (creative : Bool) (hp : FieldsPresent r) :
    FieldsPresent (applyPass3 outcome r ri creative) := by
  unfold applyPass3
  cases h : pass3Body outcome r ri creative with
  | ok r2 => exact pass3Body_present outcome r ri creative hp r2 h
  | error e => exact hp

theorem filterRealIssues_ok (xs : List PyVal)
    (h : ∀ i ∈ xs, ∃ t, i = .pstr t) :
    ∃ ls, filterRealIssues xs = .ok ls := by
  induction xs with
  | nil => exact ⟨[], rfl⟩
  | cons i rest ih =>
    obtain ⟨ls, hls⟩ := ih fun x hx => h x (List.mem_cons_of_mem _ hx)
    obtain ⟨t, rfl⟩ := h i (List.mem_cons_self _ _)
    simp only [filterRealIssues, hls, ok_bind]
    by_cases hk : (!containsL (pyLowerL t.data) ("unparseable".data) &&
        !containsL (pyLowerL t.data) ("error".data)) = true
    · exact ⟨t :: ls, by simp [hk, pure_eq_ok]⟩
    · exact ⟨ls, by simp [hk, pure_eq_ok]⟩

theorem stagePass3_ok (creative : Bool) (outcome : LLMOutcome) (r : RDict)
    (hp : FieldsPresent r) (hi : IssuesStrings r) :
    ∃ r3, stagePass3 creative outcome r = .ok r3 ∧ FieldsPresent r3 := by
  have hip : (lookupA r "validation_issues").isSome :=
    hp "validation_issues" (by simp [FieldKeys])
  obtain ⟨iv, hivv⟩ := Option.isSome_iff_exists.mp hip
  obtain ⟨xs, rfl, hstr⟩ := hi iv hivv
  obtain ⟨ls, hls⟩ := filterRealIssues_ok xs hstr
  unfold stagePass3
  rw [hivv]
  simp only [Option.getD_some]
  by_cases hrun : (pyTruthy (.plist xs) &&
      !pyTruthy ((lookupA r "raw_response").getD .pnull)) = true
  · rw [if_pos hrun]
    simp only [show pyIter (.plist xs) = .ok xs from rfl, ok_bind, hls]
    by_cases hemp : ls.isEmpty = true
    · exact ⟨r, by simp [hemp, pure_eq_ok], hp⟩
    · refine ⟨applyPass3 outcome r ls creative, by simp [hemp, pure_eq_ok], ?_⟩
      exact applyPass3_present outcome r ls creative hp
  · rw [if_neg hrun]
    exact ⟨r, rfl, hp⟩

/-- C6 counterexample: the claim promises a structured dict for every
input text and a human-readable user_feedback string for every
unparseable model response.  interpret("") returns None, not a dict; and
with a valid command whose Pass-1 response is unparseable, the returned
zero-confidence dict carries user_feedback None (the raw text goes to
interpretation/raw_response instead). -/
theorem interpret_structured_counterexample :
    interpret regW ⟨[], []⟩ false
      ⟨.resp "not json" none, .resp "" none, .resp "" none⟩ "" = .ok none ∧
    interpret regW ⟨[], []⟩ false
      ⟨.resp "not json" none, .resp "" none, .resp "" none⟩ "wave hello" =
      .ok (some (parseFailResult "not json" false)) ∧
    lookupA (parseFailResult "not json" false) "user_feedback" =
      some PyVal.pnull :=
  ⟨rfl, rfl, rfl⟩

set_option maxHeartbeats 1000000 in
/-- C6 as amended: interpret returns ok none for empty or single-character
input; for longer input a Pass-1 model-call error (including timeouts and
rate limits) yields the structured zero-confidence result carrying a
nonempty user_feedback string, a Pass-1 unparseable response yields the
structured zero-confidence result (whose user_feedback is None, with the
raw text in interpretation), and when the Pass-1 response parses to an
object with a well-formed sequence/confidence and the Pass-2 response has
well-formed issues, interpret returns a structured dict carrying the
interpretation, sequence, confidence, validated, validation_issues and
user_feedback fields without propagating an exception. -/
theorem interpret_error_handling (iset : InstructionSet) (scene : InterpScene)
    (creative : Bool) (o : Oracle) (cmd : String) :
    ((cmd = "" ∨ (pyStripL cmd.data).length < 2) →
      interpret iset scene creative o cmd = .ok none) ∧
    (¬(cmd = "" ∨ (pyStripL cmd.data).length < 2) →
      (∀ e, o.pass1 = .err e →
        interpret iset scene creative o cmd = .ok (some (errResult e creative)) ∧
        lookupA (errResult e creative) "confidence" = some (.pnum 0) ∧
        lookupA (errResult e creative) "user_feedback" =
          some (.pstr (classifyPass1Err e)) ∧
        classifyPass1Err e ≠ "") ∧
      (∀ raw, o.pass1 = .resp raw none →
        interpret iset scene creative o cmd =
          .ok (some (parseFailResult raw creative)) ∧
        lookupA (parseFailResult raw creative) "confidence" = some (.pnum 0)) ∧
      (∀ raw fields, o.pass1 = .resp raw (some (.pdict fields)) →
        WFPass1 fields → WFPass2 o.pass2 →
        ∃ d, interpret iset scene creative o cmd = .ok (some d) ∧
          FieldsPresent d)) := by
  constructor
  · intro h
    simp only [interpret]
    rw [if_pos h]
    rfl
  · intro h
    refine ⟨?_, ?_, ?_⟩
    · intro e he
      refine ⟨?_, rfl, rfl, ?_⟩
      · simp only [interpret]
        rw [if_neg h, he]
        rfl
      · simp only [classifyPass1Err]
        split_ifs
        · decide
        · decide
        · intro heq
          have hlen := congrArg String.length heq
          rw [String.length_append] at hlen
          have h11 : ("API error: " : String).length = 11 := rfl
          rw [h11] at hlen
          simp at hlen
    · intro raw hraw
      refine ⟨?_, rfl⟩
      simp only [interpret]
      rw [if_neg h, hraw]
      rfl
    · intro raw fields hresp hwf1 hwf2
      obtain ⟨r1, hr1, hp1, hs1, hc1⟩ := stageDefaults_ok creative fields hwf1
      obtain ⟨r2, hr2, hp2, hi2⟩ := stagePass2_ok (validInstructions iset)
        scene.items scene.recipes creative o.pass2 r1 hp1 hs1 hc1 hwf2
      obtain ⟨r3, hr3, hp3⟩ := stagePass3_ok creative o.pass3 r2 hp2 hi2
      refine ⟨r3, ?_, hp3⟩
      simp only [interpret]
      rw [if_neg h, hresp]
      show interpretMain (validInstructions iset) scene.items scene.recipes
        creative o.pass2 o.pass3 fields = .ok (some r3)
      simp only [interpretMain]
      rw [hr1, ok_bind, hr2, ok_bind, hr3, ok_bind, pure_eq_ok]

/-- Witness for the amended C6: a rate-limit failure on a real command
yields the structured zero-confidence feedback result, and a well-formed
empty-sequence response yields a structured dict with all fields. -/
theorem interpret_error_handling_witness :
    interpret regW ⟨[], []⟩ false
      ⟨.err "rate limited", .resp "" none, .resp "" none⟩ "wave hello" =
      .ok (some (errResult "rate limited" false)) ∧
    (∃ d, interpret regW ⟨[], []⟩ false
      ⟨.resp "x" (some (.pdict [("sequence", PyVal.plist []),
        ("confidence", PyVal.pnum 1)])), .resp "" none, .resp "" none⟩
      "wave hello" = .ok (some d) ∧ FieldsPresent d) := by
  constructor
  · exact (((interpret_error_handling regW ⟨[], []⟩ false
      ⟨.err "rate limited", .resp "" none, .resp "" none⟩ "wave hello").2
      (by decide)).1 "rate limited" rfl).1
  · refine ((interpret_error_handling regW ⟨[], []⟩ false
      ⟨.resp "x" (some (.pdict [("sequence", PyVal.plist []),
        ("confidence", PyVal.pnum 1)])), .resp "" none, .resp "" none⟩
      "wave hello").2 (by decide)).2.2 "x"
      [("sequence", PyVal.plist []), ("confidence", PyVal.pnum 1)] rfl
      ⟨?_, ?_⟩ ?_
    · intro v hv
      rw [show lookupA [("sequence", PyVal.plist []), ("confidence", PyVal.pnum 1)]
        "sequence" = some (PyVal.plist []) from rfl] at hv
      obtain rfl := Option.some.inj hv
      exact ⟨[], rfl, by simp⟩
    · intro v hv
      rw [show lookupA [("sequence", PyVal.plist []), ("confidence", PyVal.pnum 1)]
        "confidence" = some (PyVal.pnum 1) from rfl] at hv
      obtain rfl := Option.some.inj hv
      exact ⟨1, rfl⟩
    · intro raw2 fs iv hh
      cases hh

end GoFa
